import Mathlib

/-!
Verification development for the meshtastic sniffer / web-UI repository.

The Python sources are shallowly embedded:
* `meshtastic_sniffer_echo.py` / `meshtastic_usb_sniffer_echo.py`:
  the hourly-rotating NDJSON writer (`HourlyNDJSONWriter`), `now_ts`,
  `sanitize`.
* `meshtastic_webui_standalonone.py`: file-window selection and line
  processing of `load_bundle`, the normalizer, `latest_by_node_telemetry`,
  `build_overview`, `build_node_detail`, `build_messages`, `infer_is_dm`.

Machine-level conventions of the embedding:
* timestamps are integers counting microseconds since the Unix epoch
  (Python `datetime` objects are exact to the microsecond);
* JSON scalars/containers are the inductive `JVal`; Python truthiness of a
  JSON-decoded value is `JVal.truthy`;
* `float` signal values are embedded as rationals (`ℚ`): every JSON number
  the system actually handles is carried exactly;
* Python's stable `list.sort` / `sorted` are `List.insertionSort`, which has
  the same stability behaviour (an earlier element precedes a later equal
  one).
-/

namespace Meshtastic

/-- A JSON-decoded Python value, as produced by `json.loads`:
`None`, `bool`, number, `str`, `list`, `dict`. -/
inductive JVal where
  | null : JVal
  | jb : Bool → JVal
  | jnum : ℚ → JVal
  | jstr : String → JVal
  | jarr : List JVal → JVal
  | jobj : List (String × JVal) → JVal

/-- Python truthiness (`bool(v)`) of a JSON-decoded value: `None` and
`False` are falsy, numbers are truthy iff nonzero, strings and containers
are truthy iff nonempty. -/
def JVal.truthy : JVal → Bool
  | .null => false
  | .jb b => b
  | .jnum q => q ≠ 0
  | .jstr s => s ≠ ""
  | .jarr xs => !xs.isEmpty
  | .jobj fs => !fs.isEmpty

/-- Truthiness of `d.get(k)`-style optional JSON values: a missing key is
`None`, hence falsy. -/
def pyTruthyJ : Option JVal → Bool
  | none => false
  | some v => v.truthy

/-- Truthiness of an optional string (`None` and `""` are falsy). -/
def pyTruthyS : Option String → Bool
  | none => false
  | some s => s ≠ ""

/-! ### Civil-date arithmetic

Conversions between Gregorian civil dates and day counts relative to
1970-01-01, used by the embedding of `datetime` parsing and formatting.
-/

/-- Leap-year test of the proleptic Gregorian calendar. -/
def isLeap (y : Int) : Bool :=
  y % 4 = 0 && (y % 100 ≠ 0 || y % 400 = 0)

/-- Number of days in month `m` of year `y` (months are 1-based). -/
def daysInMonth (y m : Int) : Int :=
  if m = 2 then (if isLeap y then 29 else 28)
  else if m = 4 ∨ m = 6 ∨ m = 9 ∨ m = 11 then 30
  else 31

/-- Days since 1970-01-01 of the civil date `y-m-d`
(Howard Hinnant's `days_from_civil`, with floor division). -/
def daysFromCivil (y m d : Int) : Int :=
  let y' := if m ≤ 2 then y - 1 else y
  let era : Int := y'.fdiv 400
  let yoe : Int := y' - era * 400
  let mp : Int := if m > 2 then m - 3 else m + 9
  let doy : Int := (153 * mp + 2).fdiv 5 + d - 1
  let doe : Int := yoe * 365 + yoe.fdiv 4 - yoe.fdiv 100 + doy
  era * 146097 + doe - 719468

/-- Civil date `(y, m, d)` of the day `z` days after 1970-01-01
(Howard Hinnant's `civil_from_days`, with floor division). -/
def civilFromDays (z : Int) : Int × Int × Int :=
  let z' := z + 719468
  let era : Int := z'.fdiv 146097
  let doe : Int := z' - era * 146097
  let yoe : Int := (doe - doe.fdiv 1460 + doe.fdiv 36524 - doe.fdiv 146096).fdiv 365
  let y : Int := yoe + era * 400
  let doy : Int := doe - (365 * yoe + yoe.fdiv 4 - yoe.fdiv 100)
  let mp : Int := (5 * doy + 2).fdiv 153
  let d : Int := doy - (153 * mp + 2).fdiv 5 + 1
  let m : Int := if mp < 10 then mp + 3 else mp - 9
  (if m ≤ 2 then y + 1 else y, m, d)

/-- Zero-pad the decimal rendering of a nonnegative integer to `w` digits. -/
def padInt (w : Nat) (n : Int) : String :=
  let s := toString n.toNat
  let k := w - s.length
  String.mk (List.replicate k '0') ++ s

def usecPerSec : Int := 1000000
def usecPerHour : Int := 3600000000
def usecPerDay : Int := 86400000000

/-- Round a timestamp down to the top of its hour
(the effect of `dt.replace(minute=0, second=0, microsecond=0)`). -/
def hourFloor (t : Int) : Int := usecPerHour * t.fdiv usecPerHour

/-- `dt.isoformat()` of an aware UTC datetime holding `t` microseconds since
the epoch: `YYYY-MM-DDTHH:MM:SS[.ffffff]+00:00`, with the fractional part
omitted when the microsecond field is zero. -/
def isoUTC (t : Int) : String :=
  let secs := t.fdiv usecPerSec
  let us := t.emod usecPerSec
  let days := secs.fdiv 86400
  let sod := secs.emod 86400
  let ymd := civilFromDays days
  let hh := sod.fdiv 3600
  let mi := (sod.emod 3600).fdiv 60
  let ss := sod.emod 60
  padInt 4 ymd.1 ++ "-" ++ padInt 2 ymd.2.1 ++ "-" ++ padInt 2 ymd.2.2 ++
    "T" ++ padInt 2 hh ++ ":" ++ padInt 2 mi ++ ":" ++ padInt 2 ss ++
    (if us = 0 then "" else "." ++ padInt 6 us) ++ "+00:00"

/-- `dt.strftime("%Y-%m-%d_%H")`: the hour-bucket label of the instant `t`
(microseconds since the epoch). -/
def hourBucketStr (t : Int) : String :=
  let secs := t.fdiv usecPerSec
  let days := secs.fdiv 86400
  let sod := secs.emod 86400
  let ymd := civilFromDays days
  padInt 4 ymd.1 ++ "-" ++ padInt 2 ymd.2.1 ++ "-" ++ padInt 2 ymd.2.2 ++
    "_" ++ padInt 2 (sod.fdiv 3600)

/-! ### Timestamp parsing

The embedding of `datetime.fromisoformat` + `astimezone(timezone.utc)`,
restricted to the timestamp shapes this system writes and reads: full date,
`T` separator, `HH:MM:SS`, an optional 3- or 6-digit fractional-second
field, and an explicit `+HH:MM` / `-HH:MM` offset (the writers always emit
aware timestamps in exactly this shape, cf. `now_ts` /
`datetime.isoformat`).  CPython also accepts naive timestamps, whose
conversion to UTC then depends on the host timezone; those are outside this
model and the system never produces them.
-/

/-- Numeric value of a decimal digit character. -/
def digitVal (c : Char) : Int := (c.toNat : Int) - 48

/-- Read `n` decimal digits from `cs`; `none` unless all are digits. -/
def readDigits : Nat → List Char → Option Int
  | 0, _ => some 0
  | _ + 1, [] => none
  | n + 1, c :: cs =>
    if c.isDigit then
      (readDigits n cs).map (fun v => digitVal c * (10 : Int) ^ n + v)
    else none

/-- Parse the fixed-width `YYYY-MM-DDTHH:MM:SS` prefix, returning
`(usec-since-epoch, remaining characters)`. -/
def parseDateTime19 (cs : List Char) : Option (Int × List Char) := do
  let y ← readDigits 4 (cs.take 4)
  let cs1 := cs.drop 4
  guard (cs1.take 1 = ['-'])
  let mo ← readDigits 2 ((cs1.drop 1).take 2)
  let cs2 := cs1.drop 3
  guard (cs2.take 1 = ['-'])
  let d ← readDigits 2 ((cs2.drop 1).take 2)
  let cs3 := cs2.drop 3
  guard (cs3.take 1 = ['T'])
  let hh ← readDigits 2 ((cs3.drop 1).take 2)
  let cs4 := cs3.drop 3
  guard (cs4.take 1 = [':'])
  let mi ← readDigits 2 ((cs4.drop 1).take 2)
  let cs5 := cs4.drop 3
  guard (cs5.take 1 = [':'])
  let ss ← readDigits 2 ((cs5.drop 1).take 2)
  let rest := cs5.drop 3
  -- datetime validity: MINYEAR is 1; months, days, time fields bounded.
  guard (1 ≤ y ∧ 1 ≤ mo ∧ mo ≤ 12 ∧ 1 ≤ d ∧ d ≤ daysInMonth y mo ∧
         hh ≤ 23 ∧ mi ≤ 59 ∧ ss ≤ 59)
  pure ((daysFromCivil y mo d * 86400 + hh * 3600 + mi * 60 + ss) * usecPerSec,
        rest)

/-- Parse the optional fractional-second field (`.fff` or `.ffffff`),
returning its value in microseconds and the remaining characters. -/
def parseFraction (cs : List Char) : Option (Int × List Char) :=
  match cs with
  | '.' :: rest =>
    if (rest.take 6).length = 6 ∧ (rest.take 6).all Char.isDigit then
      (readDigits 6 (rest.take 6)).map (fun v => (v, rest.drop 6))
    else if (rest.take 3).length = 3 ∧ (rest.take 3).all Char.isDigit then
      (readDigits 3 (rest.take 3)).map (fun v => (v * 1000, rest.drop 3))
    else none
  | rest => some (0, rest)

/-- Parse the `±HH:MM` timezone offset, returning its value in
microseconds; the whole input must be consumed. -/
def parseOffset (cs : List Char) : Option Int := do
  let sign ← match cs.take 1 with
    | ['+'] => some (1 : Int)
    | ['-'] => some (-1 : Int)
    | _ => none
  let cs1 := cs.drop 1
  let oh ← readDigits 2 (cs1.take 2)
  guard ((cs1.drop 2).take 1 = [':'])
  let om ← readDigits 2 ((cs1.drop 3).take 2)
  guard (cs1.drop 5 = [] ∧ oh ≤ 23 ∧ om ≤ 59)
  pure (sign * (oh * 3600 + om * 60) * usecPerSec)

/-- `datetime.fromisoformat(s).astimezone(timezone.utc)` on the timestamp
shapes the system emits, as microseconds since the epoch. -/
def fromisoUsec (s : String) : Option Int := do
  let (base, rest) ← parseDateTime19 s.data
  let (frac, rest1) ← parseFraction rest
  let off ← parseOffset rest1
  pure (base + frac - off)

/-- `to_utc` (webui lines 52-57): `None`/empty strings and parse failures
give `None`; otherwise the parsed instant, normalized to UTC. -/
def to_utc (dt_str : Option String) : Option Int :=
  match dt_str with
  | none => none
  | some s => if s = "" then none else fromisoUsec s

/-- `iso` (webui lines 59-60): format an optional instant back to an
ISO-8601 string. -/
def iso (dt : Option Int) : Option String := dt.map isoUTC

/-- Lexicographic code-point comparison of character lists: CPython's
`str` ordering (`a ≤ b`). -/
def pyStrLeL : List Char → List Char → Bool
  | [], _ => true
  | _ :: _, [] => false
  | a :: as, b :: bs => if a = b then pyStrLeL as bs else decide (a < b)

/-- CPython's `a <= b` on strings. -/
def pyStrLe (a b : String) : Bool := pyStrLeL a.data b.data

/-- `s.startswith(p)` — a structural prefix test. -/
def pyStartsWith (s p : String) : Bool := p.data.isPrefixOf s.data

/-! ### Sniffer: label sanitization and the hourly NDJSON writer

From `meshtastic_sniffer_echo.py` (the unified BLE/USB variant) and
`meshtastic_usb_sniffer_echo.py` (the USB-only variant).  Python's
`str.isalnum` also accepts non-ASCII alphanumerics, which `Char.isAlnum`
does not; labels in this system are device/port names, which are ASCII.
-/

/-- `sanitize` of `meshtastic_sniffer_echo.py` (line 88-89): keep
alphanumerics and `- _ . + ! @ :`. -/
def sanitize (s : String) : String :=
  String.mk (s.data.filter
    (fun c => c.isAlphanum || (c ∈ ['-', '_', '.', '+', '!', '@', ':'])))

/-- `sanitize` of `meshtastic_usb_sniffer_echo.py` (line 70-71): keep
alphanumerics and `- _ . + ! @` — note: no colon in this variant. -/
def sanitize_usb (s : String) : String :=
  String.mk (s.data.filter
    (fun c => c.isAlphanum || (c ∈ ['-', '_', '.', '+', '!', '@'])))

/-- One event handed to `HourlyNDJSONWriter.write`: its timestamp (the
instant `now_ts` returns when the event is produced and written — the
source reads the clock once when building the event's `ts` field and once
inside `write`; the two reads are modelled as the same instant) and its
serialized NDJSON line. -/
structure Ev where
  ts : Int
  line : String
deriving DecidableEq

/-- Writer state: the currently open hour bucket (`cur_hour`) and the label
directory's files in creation order, each with its appended events. -/
structure WState where
  cur_hour : Option String
  files : List (String × List Ev)
deriving DecidableEq

/-- The empty label directory and no open file. -/
def initW : WState := ⟨none, []⟩

/-- Append an event to the file for bucket `b`, creating the file (at the
end of the directory listing) when it does not exist yet — the observable
effect of `_open_for_hour` (mode `"a"`) followed by `fp.write`. -/
def fappend : List (String × List Ev) → String → Ev → List (String × List Ev)
  | [], b, e => [(b, [e])]
  | (k, l) :: rest, b, e =>
    if k = b then (k, l ++ [e]) :: rest else (k, l) :: fappend rest b e

/-- `HourlyNDJSONWriter.write` (sniffer lines 136-155): compute the hour
bucket of the current instant (`now_ts`), rotate when it differs from
`cur_hour` (flush/close the open file, then open the bucket's file in
append mode, creating it only if missing), and append the line.  When
`cur_hour` already equals the bucket the open file is appended to
directly; since append-mode opening of an existing file also just appends,
both paths are `fappend`. -/
def writerWrite (st : WState) (e : Ev) : WState :=
  let b := hourBucketStr e.ts
  { cur_hour := some b, files := fappend st.files b e }

/-- Run a sequence of writes against the fresh writer. -/
def writeAll (evs : List Ev) : WState := evs.foldl writerWrite initW

/-! ### Web UI: window selection (`load_bundle`, lines 163-187) -/

def MAX_LOOKBACK_HOURS : Int := 168

/-- `HOUR_RE` matching (webui line 41): `.*_(\d4-\d2-\d2)_(\d2)\.ndjson`,
anchored on both sides.  The suffix after the greedy `.*` is fixed-width,
so a name matches iff its last 21 characters have this shape; `.` does not
match a newline, and the trailing anchor also accepts a single final
newline. -/
def hourSuffixOk : List Char → Bool
  | ['_', a, b, c, d, '-', e, f, '-', g, h, '_', i, j,
     '.', 'n', 'd', 'j', 's', 'o', 'n'] =>
    a.isDigit && b.isDigit && c.isDigit && d.isDigit && e.isDigit &&
      f.isDigit && g.isDigit && h.isDigit && i.isDigit && j.isDigit
  | _ => false

/-- `parse_hour_from_filename` (webui lines 43-50): match `HOUR_RE` against
the file name, then parse `f"{day}T{hour}:00:00+00:00"` with
`datetime.fromisoformat`; any failure gives `None`. -/
def parse_hour_from_filename (name : String) : Option Int :=
  let cs0 := name.data
  let cs := if cs0.getLast? = some '\n' then cs0.dropLast else cs0
  let n := cs.length
  if n < 21 then none
  else if (cs.take (n - 21)).contains '\n' then none
  else if hourSuffixOk (cs.drop (n - 21)) then
    let day := String.mk ((cs.drop (n - 21)).drop 1 |>.take 10)
    let hour := String.mk ((cs.drop (n - 21)).drop 12 |>.take 2)
    fromisoUsec (day ++ "T" ++ hour ++ ":00:00+00:00")
  else none

/-- The window predicate of hours mode (webui lines 181-184): the file's
filename-parsed bucket timestamp exists and is `≥` the cutoff `c`
(a `datetime` is always truthy, so `dt and dt >= …` is just the
comparison). -/
def bucketGE (c : Int) (f : String) : Bool :=
  match parse_hour_from_filename f with
  | some dt => decide (c ≤ dt)
  | none => false

/-- Hours-mode file selection of `load_bundle` (webui lines 170-186):
sort the glob results, clamp the lookback, select files at or after the
hour-truncated cutoff, and fall back to the last sorted file when nothing
qualifies.  (`lastfile` mode picks by filesystem mtime, a property outside
this model.) -/
def selectFilesHours (files : List String) (now : Int) (hours : Int) :
    List String :=
  let fs := files.insertionSort (fun a b => pyStrLe a b = true)
  let hrs := max 1 (min hours MAX_LOOKBACK_HOURS)
  let cutoff := now - hrs * usecPerHour
  let chosen := fs.filter (bucketGE (hourFloor cutoff))
  if chosen.isEmpty then
    match fs.getLast? with
    | some f => [f]
    | none => []
  else chosen

/-! ### Web UI: data model and normalizer

Structures carry exactly the fields the embedded functions consult; raw
packet fields that no claim or embedded function reads (`channel`,
`hopLimit`, `hopStart`, `relayNode`, `priority`, `id`, `position`) are
omitted, as is the display-name map (`harvest_name_map_from_snapshots`),
which only feeds display-name enrichment.  String-typed fields hold the
`str()` image of the underlying JSON value.
-/

/-- A `user` record inside `myInfo` / a node-table entry. -/
structure UserRec where
  id : Option String
  shortName : Option String
  longName : Option String
deriving DecidableEq

/-- The `myInfo` object of a snapshot. -/
structure MyInfo where
  user : Option UserRec
deriving DecidableEq

/-- Telemetry sub-record of a decoded packet, projected to the three keys
`latest_by_node_telemetry` and the detail view consult.  A telemetry dict
is truthy iff nonempty; a dict whose only keys are *not* among these three
behaves identically to an empty one in every consumer, so truthiness is
modelled as any of the three being present. -/
structure Telem where
  deviceMetrics : Option JVal
  environmentMetrics : Option JVal
  localStats : Option JVal

/-- Truthiness of the telemetry dict (see `Telem`). -/
def Telem.truthy (t : Telem) : Bool :=
  t.deviceMetrics.isSome || t.environmentMetrics.isSome || t.localStats.isSome

/-- A `portnum`/`payloadVariant` value: the system's packets carry a
symbolic string or a numeric port there. -/
inductive PortVal where
  | pstr : String → PortVal
  | pint : Int → PortVal
deriving DecidableEq

/-- The `decoded` object of a raw packet (consulted fields only). -/
structure Decoded where
  portnum : Option PortVal
  payloadVariant : Option PortVal
  text : Option String
  isPrivate : Option JVal
  dm : Option JVal
  telemetry : Option Telem

/-- A raw `rx`/`tx_echo` packet envelope (consulted fields only).
`fromId`/`toId` are the `str()` images when the keys hold non-`None`
values; `fromNum`/`toNum` are the `str()` images of `packet["from"]` /
`packet["to"]` when those keys exist.  `rxRssi`/`rxSnr` hold the numeric
value when the field is a JSON number (`safe_float` is exact there) and
are absent otherwise. -/
structure Packet where
  fromId : Option String
  toId : Option String
  fromNum : Option String
  toNum : Option String
  decoded : Option Decoded
  rxRssi : Option ℚ
  rxSnr : Option ℚ
  encrypted : Option JVal
  pkiEncrypted : Option JVal

def emptyDecoded : Decoded := ⟨none, none, none, none, none, none⟩

def emptyPacket : Packet :=
  ⟨none, none, none, none, none, none, none, none, none⟩

def emptyTelem : Telem := ⟨none, none, none⟩

/-- A parsed NDJSON dict event that the loader's dispatch handles without
raising (consulted fields only; `nodes` is kept as raw JSON — it only
feeds the omitted name map).  Parsed values whose shape makes the dispatch
raise (a non-dict top level, a truthy non-string `type`, a truthy non-dict
`packet` or `decoded`) are not events: they are `RawLine.raising` lines.
The remaining off-type shapes are carried by their observational images: a
falsy non-string `type` fails both `et and et.startswith(...)` and
`et in ("rx","tx_echo")`, like `type := none`; a falsy non-dict `packet`
or `decoded` is replaced by `{}` by the `or {}` defaults, like `none`; a
non-string `ts` makes `datetime.fromisoformat` raise inside `to_utc` and
resolves to `None` downstream, like an unparseable timestamp string; a
non-string `text` fails the `isinstance(..., str)` checks, like `none`. -/
structure Event where
  type : Option String
  ts : Option String
  myInfo : Option MyInfo
  nodes : Option JVal
  radioConfig : Option JVal
  packet : Option Packet

/-- The normalized message record built by `load_bundle` (webui lines
215-235), restricted to the fields the queries consult. -/
structure Msg where
  ts : Option String
  etype : String
  from_id : Option String
  to_id : Option String
  app : String
  text : Option String
  rxRssi : Option ℚ
  rxSnr : Option ℚ
  is_encrypted : Bool
  decoded_isPrivate : Option Bool
  decoded_dm : Option Bool
  telemetry : Telem

/-- A snapshot record accumulated by `load_bundle` (webui lines 201-208). -/
structure Snapshot where
  ts : Option String
  myInfo : Option MyInfo
  nodes : Option JVal
  radioConfig : Option JVal

/-- `DataBundle` (webui lines 129-136); `name_map` is omitted (display
names only). -/
structure DataBundle where
  messages : List Msg
  snapshots : List Snapshot
  my_node_id : Option String
  files_loaded : List String
  app_set : List String

def emptyBundle : DataBundle := ⟨[], [], none, [], []⟩

/-- `app_name_from_portnum` (webui lines 62-67): a nonempty string names
the app directly; known numeric ports map to their names, unknown ones to
`PORT_<n>`; anything else is `UNKNOWN`. -/
def app_name_from_portnum : Option PortVal → String
  | some (.pstr s) => if s ≠ "" then s else "UNKNOWN"
  | some (.pint n) =>
    if n = 1 then "TEXT_MESSAGE_APP"
    else if n = 3 then "POSITION_APP"
    else if n = 67 then "TELEMETRY_APP"
    else "PORT_" ++ toString n
  | none => "UNKNOWN"

/-- `norm_node_ids` (webui lines 83-89): prefer `fromId`/`toId`, falling
back to the stringified `from`/`to` keys. -/
def norm_node_ids (pkt : Packet) : Option String × Option String :=
  (match pkt.fromId with
   | some f => some f
   | none => pkt.fromNum,
   match pkt.toId with
   | some t => some t
   | none => pkt.toNum)

/-- `bool(v) if v is not None else None`: a missing key and a `None` value
both give `None`, anything else its truthiness. -/
def boolIfNotNone : Option JVal → Option Bool
  | none => none
  | some .null => none
  | some v => some v.truthy

/-- The `rx`/`tx_echo` normalization of `load_bundle` (webui lines
210-235), as a function of the event timestamp, tag and raw packet. -/
def mkMessage (ts : Option String) (et : String) (pkt : Packet) : Msg :=
  let decoded := pkt.decoded.getD emptyDecoded
  let app := app_name_from_portnum (decoded.portnum <|> decoded.payloadVariant)
  let ids := norm_node_ids pkt
  { ts := ts
    etype := et
    from_id := ids.1
    to_id := ids.2
    app := app
    text := decoded.text
    rxRssi := pkt.rxRssi
    rxSnr := pkt.rxSnr
    is_encrypted := pyTruthyJ pkt.encrypted || pyTruthyJ pkt.pkiEncrypted
    decoded_isPrivate := boolIfNotNone decoded.isPrivate
    decoded_dm := boolIfNotNone decoded.dm
    telemetry := decoded.telemetry.getD emptyTelem }

/-! ### Web UI: line processing of `load_bundle` (lines 190-239)

A physical NDJSON line is classified by what the loader's control flow
distinguishes: `blank` is a line that is empty after `strip()` (skipped by
`if not line: continue`); `malformed` is a nonblank line `json.loads`
rejects (skipped by the inner `except: continue` — the inner `try` covers
only the `json.loads` call); `raising` is a line `json.loads` accepts but
whose value makes the rest of the loop body raise — a non-dict top-level
value such as `42`, `null`, `"s"` or `[1]` (AttributeError at
`ev.get("type")`), a truthy non-string `"type"` (AttributeError at
`et.startswith`), or an `rx`/`tx_echo` event whose `"packet"`, or whose
packet's `"decoded"`, is truthy but not a dict (AttributeError at `.get`);
that exception escapes to the outer per-file `except Exception: continue`,
so the remainder of the file is abandoned; `record e` is a parsed dict
event that the dispatch handles without raising. -/
inductive RawLine where
  | blank : RawLine
  | malformed : RawLine
  | raising : RawLine
  | record : Event → RawLine

/-- Dispatch of one parsed event (webui lines 200-237): `snapshot*` tags
accumulate a snapshot; `rx`/`tx_echo` tags normalize to a message and add
its app to the app set; anything else is ignored. -/
def processEvent (out : DataBundle) (ev : Event) : DataBundle :=
  if pyTruthyS ev.type && pyStartsWith (ev.type.getD "") "snapshot" then
    { out with snapshots :=
        out.snapshots ++ [⟨ev.ts, ev.myInfo, ev.nodes, ev.radioConfig⟩] }
  else if ev.type = some "rx" ∨ ev.type = some "tx_echo" then
    let msg := mkMessage ev.ts (ev.type.getD "") (ev.packet.getD emptyPacket)
    { out with
      messages := out.messages ++ [msg]
      app_set := if msg.app ∈ out.app_set then out.app_set
                 else out.app_set ++ [msg.app] }
  else out

/-- Process one file's lines in order (webui lines 191-238): blank and
malformed lines are skipped and processing continues, records are
dispatched, but a `raising` line raises past the inner except into the
outer per-file `except Exception: continue`, so the file's remaining lines
are never read — the bundle keeps only what was accumulated before it
(nothing is appended by the raising line itself: the exception fires
before any `append`). -/
def processFile (out : DataBundle) : List RawLine → DataBundle
  | [] => out
  | RawLine.blank :: rest => processFile out rest
  | RawLine.malformed :: rest => processFile out rest
  | RawLine.raising :: _ => out
  | RawLine.record ev :: rest => processFile (processEvent out ev) rest

/-- `detect_my_node_from_snapshots` (webui lines 91-97): the first truthy
`myInfo.user.id` across the snapshots, in order. -/
def detect_my_node_from_snapshots : List Snapshot → Option String
  | [] => none
  | s :: rest =>
    let uid := ((s.myInfo.getD ⟨none⟩).user.getD ⟨none, none, none⟩).id
    if pyTruthyS uid then uid else detect_my_node_from_snapshots rest

/-- `fnmatch` of the glob pattern `<label>_*.ndjson` against a file name
(`*` matches any, possibly empty, character sequence). -/
def globMatch (label : String) (f : String) : Bool :=
  (label ++ "_").data.isPrefixOf f.data && ".ndjson".data.isSuffixOf f.data &&
    decide (label.length + 8 ≤ f.length)

/-- Look a file's lines up in the modelled label directory. -/
def dirLookup (dir : List (String × List RawLine)) (f : String) :
    Option (List RawLine) :=
  (dir.find? (fun p => p.1 = f)).map Prod.snd

/-- `load_bundle` in hours mode (webui lines 163-243) over a modelled
label directory (file name ↦ physical lines): glob, select the window,
process each selected file (the outer `except: continue` skips a file that
cannot be opened — here, a name missing from the directory — and likewise
abandons the remainder of a file once a line raises, keeping what loaded
before it and moving on to the next file), then derive the local identity
from the snapshots.  `lastfile` mode selects by filesystem mtime, which is
outside this model. -/
def load_bundle (dir : List (String × List RawLine)) (label : String)
    (now : Int) (hours : Int) : DataBundle :=
  let files := (dir.map Prod.fst).filter (globMatch label)
  if files.isEmpty then emptyBundle
  else
    let chosen := selectFilesHours files now hours
    let loaded := chosen.foldl
      (fun out f =>
        match dirLookup dir f with
        | some lines => processFile out lines
        | none => out)
      { emptyBundle with files_loaded := chosen }
    { loaded with
      my_node_id := detect_my_node_from_snapshots loaded.snapshots }

/-! ### Web UI: aggregation (`latest_by_node_telemetry`, `build_overview`,
`build_node_detail`, `build_messages`) -/

/-- Python `dict` lookup on an association list with unique keys. -/
def lookupA {β : Type} : List (String × β) → String → Option β
  | [], _ => none
  | (k0, v0) :: rest, k => if k0 = k then some v0 else lookupA rest k

/-- Python `dict` assignment: overwrite in place, or append a new key at
the end (insertion order). -/
def updAssoc {β : Type} : List (String × β) → String → β → List (String × β)
  | [], k, v => [(k, v)]
  | (k0, v0) :: rest, k, v =>
    if k0 = k then (k0, v) :: rest else (k0, v0) :: updAssoc rest k v

/-- One `dev_last`/`env_last`/`loc_last` record:
`\x7b"ts": iso(ts), **metrics\x7d` (a metrics dict carrying its own `ts`
key would override the timestamp; device/environment metrics have no such
key). -/
structure TelRec where
  ts : Option String
  metrics : List (String × JVal)

/-- `str.upper()` (Python's is Unicode-aware; node ids are ASCII). -/
def pyUpper (s : String) : String := String.mk (s.data.map Char.toUpper)

/-- Python's `needle in hay` on strings: contiguous-substring test. -/
def strInStr : List Char → List Char → Bool
  | needle, [] => needle.isEmpty
  | needle, c :: rest => needle.isPrefixOf (c :: rest) || strInStr needle rest

/-- `str.lower()` (same remark as `pyUpper`). -/
def pyLower (s : String) : String := String.mk (s.data.map Char.toLower)

/-- The device-metrics update of one loop iteration of
`latest_by_node_telemetry` (webui lines 249-255): update when the from-id
is truthy, the telemetry dict truthy, and `deviceMetrics` is a dict. -/
def devStep (acc : List (String × TelRec)) (m : Msg) : List (String × TelRec) :=
  if pyTruthyS m.from_id && m.telemetry.truthy then
    match m.telemetry.deviceMetrics with
    | some (.jobj o) => updAssoc acc (m.from_id.getD "") ⟨iso (to_utc m.ts), o⟩
    | _ => acc
  else acc

/-- As `devStep`, for `environmentMetrics` (webui lines 256-257). -/
def envStep (acc : List (String × TelRec)) (m : Msg) : List (String × TelRec) :=
  if pyTruthyS m.from_id && m.telemetry.truthy then
    match m.telemetry.environmentMetrics with
    | some (.jobj o) => updAssoc acc (m.from_id.getD "") ⟨iso (to_utc m.ts), o⟩
    | _ => acc
  else acc

/-- As `devStep`, for `localStats` (webui lines 258-259). -/
def locStep (acc : List (String × TelRec)) (m : Msg) : List (String × TelRec) :=
  if pyTruthyS m.from_id && m.telemetry.truthy then
    match m.telemetry.localStats with
    | some (.jobj o) => updAssoc acc (m.from_id.getD "") ⟨iso (to_utc m.ts), o⟩
    | _ => acc
  else acc

/-- `latest_by_node_telemetry` (webui lines 245-260).  The single source
loop updates the three dicts independently per iteration, so it factors
into three independent folds. -/
def latest_by_node_telemetry (messages : List Msg) :
    List (String × TelRec) × List (String × TelRec) × List (String × TelRec) :=
  (messages.foldl devStep [], messages.foldl envStep [],
   messages.foldl locStep [])

/-- `statistics.median`: sort the sample; the middle element for an odd
size, the mean of the two middle elements for an even size.  Total here
(`0` on the empty list); every caller guards emptiness. -/
def pymedian (l : List ℚ) : ℚ :=
  let s := l.insertionSort (fun a b => a ≤ b)
  let n := l.length
  if n % 2 = 1 then s.getD (n / 2) 0
  else (s.getD (n / 2 - 1) 0 + s.getD (n / 2) 0) / 2

/-- The per-node accumulator dict of `build_overview` (webui lines
275-280). -/
structure GroupRec where
  first_heard : Option Int
  last_heard : Option Int
  total_msgs : Nat
  rssi_vals : List ℚ
  snr_vals : List ℚ
  app_counts : List (String × Nat)

def initGroup : GroupRec := ⟨none, none, 0, [], [], []⟩

/-- `rec["app_counts"][app] = rec["app_counts"].get(app, 0) + 1`. -/
def bumpCount (counts : List (String × Nat)) (k : String) :
    List (String × Nat) :=
  updAssoc counts k ((lookupA counts k).getD 0 + 1)

/-- The per-message group update of `build_overview` (webui lines
281-289). -/
def updGroup (rec : GroupRec) (m : Msg) : GroupRec :=
  let ts := to_utc m.ts
  let rec1 := { rec with total_msgs := rec.total_msgs + 1 }
  let rec2 := match ts with
    | some t =>
      { rec1 with
        first_heard := match rec1.first_heard with
          | none => some t
          | some f => if t < f then some t else some f
        last_heard := match rec1.last_heard with
          | none => some t
          | some l => if l < t then some t else some l }
    | none => rec1
  let rec3 := match m.rxRssi with
    | some v => { rec2 with rssi_vals := rec2.rssi_vals ++ [v] }
    | none => rec2
  let rec4 := match m.rxSnr with
    | some v => { rec3 with snr_vals := rec3.snr_vals ++ [v] }
    | none => rec3
  { rec4 with
    app_counts := bumpCount rec4.app_counts
      (if m.app ≠ "" then m.app else "UNKNOWN") }

/-- One iteration of the grouping loop (webui lines 271-289): messages
with a falsy from-id are dropped; `setdefault` appends a fresh record for
a new key. -/
def byNodeStep (acc : List (String × GroupRec)) (m : Msg) :
    List (String × GroupRec) :=
  if pyTruthyS m.from_id then
    let k := m.from_id.getD ""
    match lookupA acc k with
    | some r => updAssoc acc k (updGroup r m)
    | none => acc ++ [(k, updGroup initGroup m)]
  else acc

/-- The grouping pass of `build_overview`. -/
def byNode (msgs : List Msg) : List (String × GroupRec) :=
  msgs.foldl byNodeStep []

/-- An overview row (webui lines 296-307; the display `name` is omitted
with the name map). -/
structure NodeRow where
  node_id : String
  first_heard : Option String
  last_heard : Option String
  total_msgs : Nat
  median_rssi : Option ℚ
  median_snr : Option ℚ
  app_counts : List (String × Nat)
  device : Option TelRec
  environment : Option TelRec

/-- Build one overview row from a grouped entry (webui lines 294-308). -/
def mkNodeRow (dev env : List (String × TelRec)) (p : String × GroupRec) :
    NodeRow :=
  { node_id := p.1
    first_heard := iso p.2.first_heard
    last_heard := iso p.2.last_heard
    total_msgs := p.2.total_msgs
    median_rssi :=
      if p.2.rssi_vals.isEmpty then none else some (pymedian p.2.rssi_vals)
    median_snr :=
      if p.2.snr_vals.isEmpty then none else some (pymedian p.2.snr_vals)
    app_counts := p.2.app_counts
    device := lookupA dev p.1
    environment := lookupA env p.1 }

/-- The encryption filter shared by the three views (webui lines 264-265,
321-322, 374-375). -/
def filterEnc (inc : Bool) (msgs : List Msg) : List Msg :=
  if inc then msgs else msgs.filter (fun m => !m.is_encrypted)

/-- The app filter shared by the three views (an empty filter list is
falsy, hence inactive — webui lines 266-268, 323-325, 376-378). -/
def filterApps (apps : List String) (msgs : List Msg) : List Msg :=
  if apps.isEmpty then msgs else msgs.filter (fun m => apps.contains m.app)

/-- The overview response (webui lines 312-317). -/
structure Overview where
  files_loaded : List String
  my_node_id : Option String
  apps_available : List String
  nodes : List NodeRow

/-- `build_overview` (webui lines 262-317): filter, group by from-id,
compute latest telemetry over the *unfiltered* bundle messages, build
rows, and sort them by last-heard (string key, `None` → `""`) descending,
stably. -/
def build_overview (b : DataBundle) (inc : Bool) (apps : List String) :
    Overview :=
  let msgs := filterApps apps (filterEnc inc b.messages)
  let tl := latest_by_node_telemetry b.messages
  let rows := (byNode msgs).map (mkNodeRow tl.1 tl.2.1)
  { files_loaded := b.files_loaded
    my_node_id := b.my_node_id
    apps_available := b.app_set.insertionSort (fun a b => pyStrLe a b = true)
    nodes := rows.insertionSort (fun r1 r2 =>
      pyStrLe (r2.last_heard.getD "") (r1.last_heard.getD "") = true) }

/-- Fold-based minimum of a list of instants (`min(ts_list)`). -/
def minI (l : List Int) : Option Int :=
  l.foldl (fun acc x => match acc with
    | none => some x
    | some y => some (min y x)) none

/-- Fold-based maximum of a list of instants (`max(ts_list)`). -/
def maxI (l : List Int) : Option Int :=
  l.foldl (fun acc x => match acc with
    | none => some x
    | some y => some (max y x)) none

/-- The node-detail response (webui lines 349-361), restricted to the
scalar fields; the telemetry/radio/position series are per-message maps no
claim references. -/
structure NodeDetail where
  node_id : String
  first_heard : Option String
  last_heard : Option String
  total_msgs : Nat
  median_rssi : Option ℚ
  median_snr : Option ℚ

/-- `build_node_detail` (webui lines 319-361): the same filters, then a
restriction to the node's own messages; medians as in the overview. -/
def build_node_detail (b : DataBundle) (node_id : String) (inc : Bool)
    (apps : List String) : NodeDetail :=
  let msgs := (filterApps apps (filterEnc inc b.messages)).filter
    (fun m => decide (m.from_id = some node_id))
  let ts_list := msgs.filterMap (fun m => to_utc m.ts)
  let rssi_vals := msgs.filterMap (fun m => m.rxRssi)
  let snr_vals := msgs.filterMap (fun m => m.rxSnr)
  { node_id := node_id
    first_heard := iso (minI ts_list)
    last_heard := iso (maxI ts_list)
    total_msgs := msgs.length
    median_rssi :=
      if rssi_vals.isEmpty then none else some (pymedian rssi_vals)
    median_snr :=
      if snr_vals.isEmpty then none else some (pymedian snr_vals) }

/-- `infer_is_dm` (webui lines 366-371): an explicit private/DM flag wins;
otherwise, when both the local id and the to-id are truthy, compare them
upper-cased; otherwise false. -/
def infer_is_dm (decoded_private decoded_dm : Option Bool)
    (to_id my_node_id : Option String) : Bool :=
  if decoded_private = some true ∨ decoded_dm = some true then true
  else if pyTruthyS my_node_id && pyTruthyS to_id then
    pyUpper (to_id.getD "") = pyUpper (my_node_id.getD "")
  else false

/-- The handler's resolution of the local node id (webui lines 494, 505):
`my_override or bundle.my_node_id`, where the override is the raw `my`
query parameter with the empty string mapped to `None`. -/
def resolve_my_node_id (my_raw : String) (bundle_my : Option String) :
    Option String :=
  if my_raw = "" then bundle_my else some my_raw

def MAX_MESSAGES_RETURN : Int := 5000

/-- The sort key of the message view (webui line 389):
`to_utc(ts) or datetime.fromtimestamp(0, tz=utc)` — a datetime is always
truthy, so the epoch fallback fires exactly on parse failure. -/
def msgSortKey (m : Msg) : Int := (to_utc m.ts).getD 0

/-- A message row (webui lines 399-415), restricted to consulted fields;
display names are omitted with the name map.  The row's `is_dm` Python
expression chains `or`/`and` and can yield `None`/`""`; the model carries
its truthiness. -/
structure MsgRow where
  ts : Option String
  from_id : Option String
  to_id : Option String
  app : String
  is_dm : Bool
  text : Option String
  rxRssi : Option ℚ
  rxSnr : Option ℚ

/-- Build one message row (webui lines 399-415). -/
def mkMsgRow (my : Option String) (m : Msg) : MsgRow :=
  { ts := m.ts
    from_id := m.from_id
    to_id := m.to_id
    app := m.app
    is_dm := (m.decoded_isPrivate = some true) || (m.decoded_dm = some true) ||
      (pyTruthyS my && m.to_id.isSome &&
        (pyUpper (m.to_id.getD "") = pyUpper (my.getD "")))
    text := m.text
    rxRssi := m.rxRssi
    rxSnr := m.rxSnr }

/-- `build_messages` (webui lines 363-416), with the post-call bundle made
explicit: `msgs` starts as an *alias* of `bundle.messages`; each active
filter rebinds `msgs` to a fresh list, but when every filter is inactive
the `msgs.sort(...)` on line 389 sorts `bundle.messages` in place.  The
returned rows are the sorted list truncated to the clamped limit. -/
def build_messages (b : DataBundle) (inc : Bool) (apps : List String)
    (my from_id to_id : Option String) (dm_only : Bool)
    (text_contains : Option String) (lim : Int) :
    List MsgRow × DataBundle :=
  let m1 := filterEnc inc b.messages
  let m2 := filterApps apps m1
  let m3 := if pyTruthyS from_id then
      m2.filter (fun m => decide (m.from_id = from_id)) else m2
  let m4 := if pyTruthyS to_id then
      m3.filter (fun m => decide (m.to_id = to_id)) else m3
  let m5 := if dm_only then
      m4.filter (fun m =>
        infer_is_dm m.decoded_isPrivate m.decoded_dm m.to_id my) else m4
  let m6 := if pyTruthyS text_contains then
      m5.filter (fun m => match m.text with
        | some t =>
          strInStr (pyLower (text_contains.getD "")).data (pyLower t).data
        | none => false) else m5
  let sorted := m6.insertionSort (fun a b => msgSortKey b ≤ msgSortKey a)
  let rows := (sorted.take (max 1 (min lim MAX_MESSAGES_RETURN)).toNat).map
    (mkMsgRow my)
  let filtersActive := !inc || !apps.isEmpty || pyTruthyS from_id ||
    pyTruthyS to_id || dm_only || pyTruthyS text_contains
  (rows, if filtersActive then b else { b with messages := sorted })

/-- `build_overview` with the post-call bundle made explicit: it performs
no in-place operation on any bundle field (each filter rebinds to a fresh
list; the row sort sorts the fresh row list), so the bundle is returned
unchanged. -/
def build_overview_full (b : DataBundle) (inc : Bool) (apps : List String) :
    Overview × DataBundle :=
  (build_overview b inc apps, b)

/-- `build_node_detail` with the post-call bundle made explicit (the
restriction to the node's messages always rebinds before the only
downstream uses, and nothing is sorted in place). -/
def build_node_detail_full (b : DataBundle) (node_id : String) (inc : Bool)
    (apps : List String) : NodeDetail × DataBundle :=
  (build_node_detail b node_id inc apps, b)

/-! ### Derived views of the embedded functions, used to state the claims -/

/-- The message (if any) a parsed event contributes to the bundle. -/
def evMsg (ev : Event) : Option Msg :=
  if pyTruthyS ev.type && pyStartsWith (ev.type.getD "") "snapshot" then none
  else if ev.type = some "rx" ∨ ev.type = some "tx_echo" then
    some (mkMessage ev.ts (ev.type.getD "") (ev.packet.getD emptyPacket))
  else none

/-- The snapshot (if any) a parsed event contributes to the bundle. -/
def evSnap (ev : Event) : Option Snapshot :=
  if pyTruthyS ev.type && pyStartsWith (ev.type.getD "") "snapshot" then
    some ⟨ev.ts, ev.myInfo, ev.nodes, ev.radioConfig⟩
  else none

/-- The message a physical line contributes to the bundle. -/
def lineMsg : RawLine → Option Msg
  | .record ev => evMsg ev
  | _ => none

/-- The snapshot a physical line contributes to the bundle. -/
def lineSnap : RawLine → Option Snapshot
  | .record ev => evSnap ev
  | _ => none

/-- Whether a line lets the loader's loop continue: every line except a
`raising` one (whose exception aborts the rest of the file). -/
def notRaising : RawLine → Bool
  | .raising => false
  | _ => true

/-- The filtered message list feeding the grouping pass of the overview
and the detail/message views. -/
def filteredMsgs (b : DataBundle) (inc : Bool) (apps : List String) :
    List Msg :=
  filterApps apps (filterEnc inc b.messages)

/-- The messages grouped under key `nid` by the overview's grouping pass
(truthy from-id equal to `nid`). -/
def groupList (msgs : List Msg) (nid : String) : List Msg :=
  msgs.filter (fun m => pyTruthyS m.from_id && decide (m.from_id = some nid))

/-- The RSSI samples the overview collects for node `nid`. -/
def rssiSamples (b : DataBundle) (inc : Bool) (apps : List String)
    (nid : String) : List ℚ :=
  (groupList (filteredMsgs b inc apps) nid).filterMap (fun m => m.rxRssi)

/-- The SNR samples the overview collects for node `nid`. -/
def snrSamples (b : DataBundle) (inc : Bool) (apps : List String)
    (nid : String) : List ℚ :=
  (groupList (filteredMsgs b inc apps) nid).filterMap (fun m => m.rxSnr)

/-- The RSSI samples the node-detail view collects for node `nid` (the
detail view filters on bare id equality, without the truthiness guard of
the grouping pass). -/
def detailRssiSamples (b : DataBundle) (nid : String) (inc : Bool)
    (apps : List String) : List ℚ :=
  ((filteredMsgs b inc apps).filter (fun m => decide (m.from_id = some nid))
    ).filterMap (fun m => m.rxRssi)

/-- The SNR samples of the node-detail view. -/
def detailSnrSamples (b : DataBundle) (nid : String) (inc : Bool)
    (apps : List String) : List ℚ :=
  ((filteredMsgs b inc apps).filter (fun m => decide (m.from_id = some nid))
    ).filterMap (fun m => m.rxSnr)

/-- `None` when the sample list is empty, else its median — the guarded
median expression of both views. -/
def optMedian (l : List ℚ) : Option ℚ :=
  if l.isEmpty then none else some (pymedian l)

/-- The device-metrics dict of a message, when present and a dict. -/
def devObj (m : Msg) : Option (List (String × JVal)) :=
  match m.telemetry.deviceMetrics with
  | some (.jobj o) => some o
  | _ => none

/-- The environment-metrics dict of a message, when present and a dict. -/
def envObj (m : Msg) : Option (List (String × JVal)) :=
  match m.telemetry.environmentMetrics with
  | some (.jobj o) => some o
  | _ => none

/-- Does message `m` update the latest-device-telemetry entry of `nid`? -/
def devQual (nid : String) (m : Msg) : Bool :=
  decide (m.from_id = some nid) && pyTruthyS m.from_id && (devObj m).isSome

/-- Does message `m` update the latest-environment-telemetry entry of
`nid`? -/
def envQual (nid : String) (m : Msg) : Bool :=
  decide (m.from_id = some nid) && pyTruthyS m.from_id && (envObj m).isSome

/-- The device-telemetry record message `m` contributes. -/
def devRecOf (m : Msg) : TelRec := ⟨iso (to_utc m.ts), (devObj m).getD []⟩

/-- The environment-telemetry record message `m` contributes. -/
def envRecOf (m : Msg) : TelRec := ⟨iso (to_utc m.ts), (envObj m).getD []⟩

/-! ### Concrete fixtures for witnesses and counterexamples -/

/-- A plain text message fixture. -/
def fixMsg (ts : String) (fid : String) (rssi snr : Option ℚ) : Msg :=
  ⟨some ts, "rx", some fid, none, "TEXT_MESSAGE_APP", none, rssi, snr,
   false, none, none, emptyTelem⟩

/-- A message fixture with an arbitrary (possibly unparseable) timestamp
and no samples. -/
def fixMsgTs (ts : String) : Msg := fixMsg ts "!a" none none

/-- A telemetry message fixture carrying a `batteryLevel` device metric;
`enc` marks it encrypted. -/
def fixTelMsg (ts : String) (fid : String) (batt : ℚ) (enc : Bool) : Msg :=
  ⟨some ts, "rx", some fid, none, "TELEMETRY_APP", none, none, none, enc,
   none, none, ⟨some (.jobj [("batteryLevel", .jnum batt)]), none, none⟩⟩

/-- Bundle whose two messages are in ascending timestamp order: the
no-filter message query sorts them in place (C7). -/
def c7Bundle : DataBundle :=
  ⟨[fixMsgTs "2024-01-01T01:00:00+00:00", fixMsgTs "2024-01-01T02:00:00+00:00"],
   [], none, [], []⟩

/-- Bundle with one unparseable timestamp and one parseable pre-epoch
timestamp (C6). -/
def c6Bundle : DataBundle :=
  ⟨[fixMsgTs "not-a-timestamp", fixMsgTs "1969-12-31T23:00:00+00:00"],
   [], none, [], []⟩

/-- Bundle realizing the spec's odd-size median example: node `!a` has
RSSI samples `[-80, -90, -70]` (C4). -/
def c4aBundle : DataBundle :=
  ⟨[fixMsg "2024-01-01T01:00:00+00:00" "!a" (some (-80)) none,
    fixMsg "2024-01-01T02:00:00+00:00" "!a" (some (-90)) none,
    fixMsg "2024-01-01T03:00:00+00:00" "!a" (some (-70)) none],
   [], none, [], []⟩

/-- Bundle realizing the spec's even-size median example: node `!b` has
RSSI samples `[-80, -90]` (C4). -/
def c4bBundle : DataBundle :=
  ⟨[fixMsg "2024-01-01T04:00:00+00:00" "!b" (some (-80)) none,
    fixMsg "2024-01-01T05:00:00+00:00" "!b" (some (-90)) none],
   [], none, [], []⟩

/-- Bundle whose node `!a` sends an unencrypted telemetry reading and then
an encrypted one: the encrypted reading is the latest even when the
grouping pass excludes encrypted messages (C5). -/
def c5Bundle : DataBundle :=
  ⟨[fixTelMsg "2024-01-01T01:00:00+00:00" "!a" 50 false,
    fixTelMsg "2024-01-01T02:00:00+00:00" "!a" 75 true],
   [], none, [], []⟩

/-! ## Helper lemmas -/

theorem pyUpper_empty_iff (s : String) : pyUpper s = "" ↔ s = "" := by
  unfold pyUpper
  constructor
  · intro h
    have h2 : s.data.map Char.toUpper = ([] : List Char) := by
      have := congrArg String.data h
      simpa using this
    have h3 : s.data = [] := by simpa using h2
    cases s
    simp_all
  · intro h
    subst h
    rfl

/-! ## Claim C3: direct-message classification of the messages query -/

/-- C3: the DM classification used by the messages query is true exactly
when an explicit private/DM flag is set, or else when the to-id and the
resolved local node id are both present, the local id nonempty, and the
two compare equal case-insensitively; and the handler resolves the local
id by letting a nonempty caller-supplied override take precedence over the
bundle-derived identity. -/
theorem c3_dm_classification :
    (∀ (p d : Option Bool) (toI myI : Option String),
      infer_is_dm p d toI myI = true ↔
        ((p = some true ∨ d = some true) ∨
          ∃ t mi, toI = some t ∧ myI = some mi ∧ mi ≠ "" ∧
            pyUpper t = pyUpper mi))
    ∧ (∀ (my_raw : String) (bundle_my : Option String),
        resolve_my_node_id my_raw bundle_my =
          if my_raw = "" then bundle_my else some my_raw) := by
  constructor
  · intro p d toI myI
    unfold infer_is_dm
    by_cases hpd : p = some true ∨ d = some true
    · rw [if_pos hpd]
      simp only [true_iff]
      exact Or.inl hpd
    · rw [if_neg hpd]
      constructor
      · intro h
        by_cases hc : (pyTruthyS myI && pyTruthyS toI) = true
        · rw [if_pos hc] at h
          obtain ⟨hmy, hto⟩ := Bool.and_eq_true_iff.mp hc
          cases toI with
          | none => simp [pyTruthyS] at hto
          | some t =>
            cases myI with
            | none => simp [pyTruthyS] at hmy
            | some mi =>
              refine Or.inr ⟨t, mi, rfl, rfl, ?_, ?_⟩
              · simpa [pyTruthyS] using hmy
              · simpa using of_decide_eq_true h
        · rw [if_neg hc] at h
          exact absurd h (by simp)
      · rintro (h | ⟨t, mi, rfl, rfl, hmi, hup⟩)
        · exact absurd h hpd
        · have ht : t ≠ "" := by
            intro h0
            subst h0
            exact hmi ((pyUpper_empty_iff mi).mp hup.symm)
          rw [if_pos (by simp [pyTruthyS, hmi, ht])]
          exact decide_eq_true (by simpa using hup)
  · intro my_raw bundle_my
    rfl

/-- Witness for C3: `to = "!AB"`, resolved local id `"!ab"`, no flags:
classified as a DM; and the override resolution at concrete inputs. -/
theorem c3_dm_classification_witness :
    infer_is_dm none none (some "!AB") (some "!ab") = true ∧
    resolve_my_node_id "!xy" (some "!ab") = some "!xy" := by
  constructor
  · exact (c3_dm_classification.1 none none (some "!AB") (some "!ab")).mpr
      (Or.inr ⟨"!AB", "!ab", rfl, rfl, by decide, by decide⟩)
  · exact (c3_dm_classification.2 "!xy" (some "!ab")).trans (by decide)

/-! ## Claim C9: label sanitization -/

/-- C9 counterexample: the claim says every writer's sanitization keeps
`:`; the USB variant's `sanitize` drops it (the unified variant keeps
it). -/
theorem c9_counterexample : sanitize_usb ":" = "" ∧ sanitize ":" = ":" := by
  constructor
  · rfl
  · rfl

/-- C9 (amended): the unified sniffer's `sanitize` keeps exactly the
alphanumerics and `- _ . + ! @ :`; the USB sniffer's `sanitize` keeps
exactly the alphanumerics and `- _ . + ! @`, dropping the colon. -/
theorem c9_sanitize :
    (∀ s : String, (sanitize s).data =
      s.data.filter
        (fun c => c.isAlphanum || (c ∈ ['-', '_', '.', '+', '!', '@', ':'])))
    ∧ (∀ s : String, (sanitize_usb s).data =
      s.data.filter
        (fun c => c.isAlphanum || (c ∈ ['-', '_', '.', '+', '!', '@'])))
    ∧ (∀ s : String, ':' ∉ (sanitize_usb s).data)
    ∧ (∀ s : String, ':' ∈ s.data → ':' ∈ (sanitize s).data) := by
  refine ⟨fun s => rfl, fun s => rfl, fun s h => ?_, fun s h => ?_⟩
  · rw [show (sanitize_usb s).data =
        s.data.filter
          (fun c => c.isAlphanum || (c ∈ ['-', '_', '.', '+', '!', '@']))
      from rfl] at h
    have := List.of_mem_filter h
    simp at this
  · rw [show (sanitize s).data =
        s.data.filter
          (fun c => c.isAlphanum || (c ∈ ['-', '_', '.', '+', '!', '@', ':']))
      from rfl]
    exact List.mem_filter.mpr ⟨h, by decide⟩

/-- Witness for C9: the colon survives the unified sanitization of a
concrete label. -/
theorem c9_sanitize_witness : ':' ∈ (sanitize "ble-aa:bb").data :=
  c9_sanitize.2.2.2 "ble-aa:bb" (by decide)

/-! ## Claim C10: the encrypted flag covers PKI encryption -/

/-- C10: the normalizer sets `is_encrypted` exactly when the raw packet
carries a truthy `encrypted` or a truthy `pkiEncrypted` field, and
the include-encrypted toggle's filter keeps only messages with the flag
clear — so PKI-encrypted messages are excluded along with `encrypted`
ones. -/
theorem c10_encrypted_flag :
    (∀ (ts : Option String) (et : String) (pkt : Packet),
      (mkMessage ts et pkt).is_encrypted =
        (pyTruthyJ pkt.encrypted || pyTruthyJ pkt.pkiEncrypted))
    ∧ (∀ (msgs : List Msg) (m : Msg), m ∈ filterEnc false msgs →
        m.is_encrypted = false) := by
  constructor
  · intro ts et pkt
    rfl
  · intro msgs m hm
    unfold filterEnc at hm
    rw [if_neg (by simp)] at hm
    have := List.of_mem_filter hm
    simpa using this

/-- Witness for C10: a packet marked only `pkiEncrypted` normalizes with
`is_encrypted = true`, and a clear message survives the filter with the
flag clear. -/
theorem c10_encrypted_flag_witness :
    (mkMessage none "rx"
      ⟨none, none, none, none, none, none, none, none, some (.jb true)⟩
      ).is_encrypted = true ∧
    (fixMsgTs "t").is_encrypted = false := by
  constructor
  · exact (c10_encrypted_flag.1 none "rx"
      ⟨none, none, none, none, none, none, none, none, some (.jb true)⟩
      ).trans (by decide)
  · exact c10_encrypted_flag.2 [fixMsgTs "t"] (fixMsgTs "t")
      (by rw [show filterEnc false [fixMsgTs "t"] = [fixMsgTs "t"] from rfl]
          exact List.mem_singleton.mpr rfl)

/-! ## Claim C8: malformed and blank lines are skipped, not fatal

Corrected: the inner `try` of the loader covers only `json.loads`, so a
line whose JSON parses but whose value makes the dispatch raise (e.g. the
line `42`) escapes to the outer per-file `except Exception: continue`,
which abandons the remainder of that file — records after such a line are
lost. -/

theorem processEvent_messages (out : DataBundle) (ev : Event) :
    (processEvent out ev).messages = out.messages ++ (evMsg ev).toList := by
  unfold processEvent evMsg
  by_cases h1 :
      (pyTruthyS ev.type && pyStartsWith (ev.type.getD "") "snapshot") = true
  · rw [if_pos h1, if_pos h1]
    simp
  · rw [if_neg h1, if_neg h1]
    by_cases h2 : ev.type = some "rx" ∨ ev.type = some "tx_echo"
    · rw [if_pos h2, if_pos h2]
      simp
    · rw [if_neg h2, if_neg h2]
      simp

theorem processEvent_snapshots (out : DataBundle) (ev : Event) :
    (processEvent out ev).snapshots = out.snapshots ++ (evSnap ev).toList := by
  unfold processEvent evSnap
  by_cases h1 :
      (pyTruthyS ev.type && pyStartsWith (ev.type.getD "") "snapshot") = true
  · rw [if_pos h1, if_pos h1]
    simp
  · rw [if_neg h1, if_neg h1]
    by_cases h2 : ev.type = some "rx" ∨ ev.type = some "tx_echo"
    · rw [if_pos h2]
      simp
    · rw [if_neg h2]
      simp

/-- C8 counterexample: in a file holding a well-formed `rx` record, then a
line whose JSON parses to a non-record value (the dispatch raises), then a
second well-formed `rx` record, only the first record loads — the raising
line aborts the remainder of the file — whereas without the offending line
both records load.  The claim asserts records before and after such a line
all appear. -/
theorem c8_counterexample :
    ((processFile emptyBundle
      [RawLine.record ⟨some "rx", some "t1", none, none, none, none⟩,
       RawLine.raising,
       RawLine.record ⟨some "rx", some "t2", none, none, none, none⟩]
      ).messages.map Msg.ts = [some "t1"]) ∧
    ((processFile emptyBundle
      [RawLine.record ⟨some "rx", some "t1", none, none, none, none⟩,
       RawLine.record ⟨some "rx", some "t2", none, none, none, none⟩]
      ).messages.map Msg.ts = [some "t1", some "t2"]) := by
  exact ⟨by decide, by decide⟩

/-- C8 (amended): file processing consumes lines in order up to the first
raising line, if any: messages and snapshots are exactly the contributions
of the well-formed records in that prefix; inserting a blank line or a
line rejected by `json.loads` anywhere leaves the resulting bundle
unchanged; but after a prefix of non-raising lines, a raising line makes
the loader drop everything that follows it in the file. -/
theorem c8_loader_partial :
    (∀ (out : DataBundle) (ls : List RawLine),
      (processFile out ls).messages =
        out.messages ++ (ls.takeWhile notRaising).filterMap lineMsg)
    ∧ (∀ (out : DataBundle) (ls : List RawLine),
      (processFile out ls).snapshots =
        out.snapshots ++ (ls.takeWhile notRaising).filterMap lineSnap)
    ∧ (∀ (out : DataBundle) (l1 l2 : List RawLine),
      processFile out (l1 ++ RawLine.malformed :: l2) =
        processFile out (l1 ++ l2))
    ∧ (∀ (out : DataBundle) (l1 l2 : List RawLine),
      processFile out (l1 ++ RawLine.blank :: l2) =
        processFile out (l1 ++ l2))
    ∧ (∀ (out : DataBundle) (l1 l2 : List RawLine),
      (∀ l ∈ l1, notRaising l = true) →
      processFile out (l1 ++ RawLine.raising :: l2) =
        processFile out l1) := by
  have hmsg : ∀ (ls : List RawLine) (out : DataBundle),
      (processFile out ls).messages =
        out.messages ++ (ls.takeWhile notRaising).filterMap lineMsg := by
    intro ls
    induction ls with
    | nil => intro out; simp [processFile]
    | cons l rest ih =>
      intro out
      cases l with
      | blank =>
        rw [show processFile out (RawLine.blank :: rest) =
          processFile out rest from rfl, ih]
        simp [List.takeWhile_cons, notRaising, lineMsg, List.filterMap_cons]
      | malformed =>
        rw [show processFile out (RawLine.malformed :: rest) =
          processFile out rest from rfl, ih]
        simp [List.takeWhile_cons, notRaising, lineMsg, List.filterMap_cons]
      | raising =>
        rw [show processFile out (RawLine.raising :: rest) = out from rfl]
        simp [List.takeWhile_cons, notRaising]
      | record ev =>
        rw [show processFile out (RawLine.record ev :: rest) =
          processFile (processEvent out ev) rest from rfl, ih,
          processEvent_messages]
        simp only [List.takeWhile_cons, notRaising, List.filterMap_cons,
          lineMsg]
        cases h : evMsg ev <;> simp [List.filterMap_cons, lineMsg, h]
  have hsnap : ∀ (ls : List RawLine) (out : DataBundle),
      (processFile out ls).snapshots =
        out.snapshots ++ (ls.takeWhile notRaising).filterMap lineSnap := by
    intro ls
    induction ls with
    | nil => intro out; simp [processFile]
    | cons l rest ih =>
      intro out
      cases l with
      | blank =>
        rw [show processFile out (RawLine.blank :: rest) =
          processFile out rest from rfl, ih]
        simp [List.takeWhile_cons, notRaising, lineSnap, List.filterMap_cons]
      | malformed =>
        rw [show processFile out (RawLine.malformed :: rest) =
          processFile out rest from rfl, ih]
        simp [List.takeWhile_cons, notRaising, lineSnap, List.filterMap_cons]
      | raising =>
        rw [show processFile out (RawLine.raising :: rest) = out from rfl]
        simp [List.takeWhile_cons, notRaising]
      | record ev =>
        rw [show processFile out (RawLine.record ev :: rest) =
          processFile (processEvent out ev) rest from rfl, ih,
          processEvent_snapshots]
        simp only [List.takeWhile_cons, notRaising, List.filterMap_cons,
          lineSnap]
        cases h : evSnap ev <;> simp [List.filterMap_cons, lineSnap, h]
  have hmal : ∀ (l1 : List RawLine) (out : DataBundle) (l2 : List RawLine),
      processFile out (l1 ++ RawLine.malformed :: l2) =
        processFile out (l1 ++ l2) := by
    intro l1
    induction l1 with
    | nil => intro out l2; rfl
    | cons l rest ih =>
      intro out l2
      cases l with
      | blank => simp only [List.cons_append]; exact ih out l2
      | malformed => simp only [List.cons_append]; exact ih out l2
      | raising => simp only [List.cons_append]; rfl
      | record ev =>
        simp only [List.cons_append]; exact ih (processEvent out ev) l2
  have hblank : ∀ (l1 : List RawLine) (out : DataBundle) (l2 : List RawLine),
      processFile out (l1 ++ RawLine.blank :: l2) =
        processFile out (l1 ++ l2) := by
    intro l1
    induction l1 with
    | nil => intro out l2; rfl
    | cons l rest ih =>
      intro out l2
      cases l with
      | blank => simp only [List.cons_append]; exact ih out l2
      | malformed => simp only [List.cons_append]; exact ih out l2
      | raising => simp only [List.cons_append]; rfl
      | record ev =>
        simp only [List.cons_append]; exact ih (processEvent out ev) l2
  have habort : ∀ (l1 : List RawLine) (out : DataBundle) (l2 : List RawLine),
      (∀ l ∈ l1, notRaising l = true) →
      processFile out (l1 ++ RawLine.raising :: l2) =
        processFile out l1 := by
    intro l1
    induction l1 with
    | nil => intro out l2 _; rfl
    | cons l rest ih =>
      intro out l2 h
      have hrest : ∀ x ∈ rest, notRaising x = true :=
        fun x hx => h x (List.mem_cons_of_mem _ hx)
      cases l with
      | blank => simp only [List.cons_append]; exact ih out l2 hrest
      | malformed => simp only [List.cons_append]; exact ih out l2 hrest
      | raising =>
        have hl := h RawLine.raising (List.mem_cons_self _ _)
        simp [notRaising] at hl
      | record ev =>
        simp only [List.cons_append]; exact ih (processEvent out ev) l2 hrest
  exact ⟨fun out ls => hmsg ls out, fun out ls => hsnap ls out,
    fun out l1 l2 => hmal l1 out l2, fun out l1 l2 => hblank l1 out l2,
    fun out l1 l2 h => habort l1 out l2 h⟩

/-- Witness for C8 (amended): the abort clause at the concrete file of the
counterexample — processing it equals processing the prefix before the
raising line alone. -/
theorem c8_loader_partial_witness :
    processFile emptyBundle
      [RawLine.record ⟨some "rx", some "t1", none, none, none, none⟩,
       RawLine.raising,
       RawLine.record ⟨some "rx", some "t2", none, none, none, none⟩] =
    processFile emptyBundle
      [RawLine.record ⟨some "rx", some "t1", none, none, none, none⟩] := by
  exact c8_loader_partial.2.2.2.2 emptyBundle
    [RawLine.record ⟨some "rx", some "t1", none, none, none, none⟩]
    [RawLine.record ⟨some "rx", some "t2", none, none, none, none⟩]
    (by
      intro l hl
      rw [List.mem_singleton] at hl
      subst hl
      rfl)

/-! ## Claim C2: hourly rotation of the NDJSON writer -/

theorem lookupA_fappend (fs : List (String × List Ev)) (b : String) (e : Ev)
    (k : String) :
    lookupA (fappend fs b e) k =
      if k = b then some ((lookupA fs b).getD [] ++ [e]) else lookupA fs k := by
  induction fs with
  | nil =>
    by_cases h : k = b
    · subst h
      simp [fappend, lookupA]
    · have hbk : ¬ b = k := fun hh => h hh.symm
      simp [fappend, lookupA, h, hbk]
  | cons p rest ih =>
    obtain ⟨k0, l⟩ := p
    by_cases h0 : k0 = b
    · subst h0
      by_cases hk : k0 = k
      · subst hk
        simp [fappend, lookupA]
      · have hk2 : ¬ k = k0 := fun hh => hk hh.symm
        simp [fappend, lookupA, hk, hk2]
    · by_cases hk : k0 = k
      · subst hk
        have hkb : ¬ k0 = b := h0
        simp [fappend, lookupA, h0, fun hh : k0 = b => h0 hh]
      · simp [fappend, lookupA, h0, hk, ih]

theorem fappend_keys (fs : List (String × List Ev)) (b : String) (e : Ev) :
    (fappend fs b e).map Prod.fst =
      if b ∈ fs.map Prod.fst then fs.map Prod.fst
      else fs.map Prod.fst ++ [b] := by
  induction fs with
  | nil => simp [fappend]
  | cons p rest ih =>
    obtain ⟨k0, l⟩ := p
    by_cases h0 : k0 = b
    · subst h0
      simp [fappend]
    · have hne : ¬ b = k0 := fun hh => h0 hh.symm
      by_cases hb : b ∈ rest.map Prod.fst
      · simp [fappend, h0, ih, hb, hne]
      · simp [fappend, h0, ih, hb, hne]

theorem mem_fappend_keys (fs : List (String × List Ev)) (b : String) (e : Ev)
    (k : String) :
    k ∈ (fappend fs b e).map Prod.fst ↔ k ∈ fs.map Prod.fst ∨ k = b := by
  rw [fappend_keys]
  by_cases hb : b ∈ fs.map Prod.fst
  · rw [if_pos hb]
    constructor
    · exact Or.inl
    · rintro (h | rfl)
      · exact h
      · exact hb
  · rw [if_neg hb]
    simp

theorem nodup_fappend_keys (fs : List (String × List Ev)) (b : String)
    (e : Ev) (h : (fs.map Prod.fst).Nodup) :
    ((fappend fs b e).map Prod.fst).Nodup := by
  rw [fappend_keys]
  by_cases hb : b ∈ fs.map Prod.fst
  · rw [if_pos hb]
    exact h
  · rw [if_neg hb]
    refine List.Nodup.append h (List.nodup_singleton b) ?_
    intro a ha hain
    rw [List.mem_singleton] at hain
    subst hain
    exact hb ha

/-- The bucket-labelled append step of one write. -/
def bstep (fs : List (String × List Ev)) (e : Ev) :
    List (String × List Ev) :=
  fappend fs (hourBucketStr e.ts) e

theorem writeAll_files_eq (evs : List Ev) :
    ∀ st : WState, (evs.foldl writerWrite st).files = evs.foldl bstep st.files := by
  induction evs with
  | nil => intro st; rfl
  | cons e rest ih =>
    intro st
    have h1 : (e :: rest).foldl writerWrite st =
        rest.foldl writerWrite (writerWrite st e) := rfl
    rw [h1, ih]
    rfl

theorem lookupA_foldl_bstep (evs : List Ev) :
    ∀ (fs : List (String × List Ev)) (k : String),
      lookupA (evs.foldl bstep fs) k =
        match lookupA fs k,
            evs.filter (fun e => decide (hourBucketStr e.ts = k)) with
        | none, [] => none
        | o, fl => some (o.getD [] ++ fl) := by
  induction evs with
  | nil =>
    intro fs k
    cases h : lookupA fs k <;> simp [h]
  | cons e rest ih =>
    intro fs k
    have h1 : (e :: rest).foldl bstep fs = rest.foldl bstep (bstep fs e) := rfl
    rw [h1, ih]
    by_cases hk : hourBucketStr e.ts = k
    · have hl : lookupA (bstep fs e) k =
          some ((lookupA fs k).getD [] ++ [e]) := by
        rw [bstep, lookupA_fappend, if_pos hk.symm, hk]
      rw [hl]
      have hf : (e :: rest).filter (fun e => decide (hourBucketStr e.ts = k)) =
          e :: rest.filter (fun e => decide (hourBucketStr e.ts = k)) := by
        simp [List.filter_cons, hk]
      rw [hf]
      cases h2 : lookupA fs k <;>
        cases h3 : rest.filter (fun e => decide (hourBucketStr e.ts = k)) <;>
          simp [h2, h3]
    · have hl : lookupA (bstep fs e) k = lookupA fs k := by
        rw [bstep, lookupA_fappend, if_neg (fun hh => hk hh.symm)]
      rw [hl]
      have hf : (e :: rest).filter (fun e => decide (hourBucketStr e.ts = k)) =
          rest.filter (fun e => decide (hourBucketStr e.ts = k)) := by
        simp [List.filter_cons, hk]
      rw [hf]

theorem mem_keys_foldl_bstep (evs : List Ev) :
    ∀ (fs : List (String × List Ev)) (k : String),
      k ∈ (evs.foldl bstep fs).map Prod.fst ↔
        k ∈ fs.map Prod.fst ∨ k ∈ evs.map (fun e => hourBucketStr e.ts) := by
  induction evs with
  | nil => intro fs k; simp
  | cons e rest ih =>
    intro fs k
    have h1 : (e :: rest).foldl bstep fs = rest.foldl bstep (bstep fs e) := rfl
    rw [h1, ih]
    rw [bstep, mem_fappend_keys]
    simp only [List.map_cons, List.mem_cons]
    tauto

theorem nodup_keys_foldl_bstep (evs : List Ev) :
    ∀ fs : List (String × List Ev), (fs.map Prod.fst).Nodup →
      ((evs.foldl bstep fs).map Prod.fst).Nodup := by
  induction evs with
  | nil => intro fs h; exact h
  | cons e rest ih =>
    intro fs h
    exact ih (bstep fs e) (nodup_fappend_keys fs _ e h)

theorem lookupA_of_mem {β : Type} (fs : List (String × β))
    (h : (fs.map Prod.fst).Nodup) (p : String × β) (hp : p ∈ fs) :
    lookupA fs p.1 = some p.2 := by
  induction fs with
  | nil => cases hp
  | cons q rest ih =>
    obtain ⟨k0, v0⟩ := q
    rcases List.mem_cons.mp hp with rfl | hmem
    · simp [lookupA]
    · have hk : ¬ k0 = p.1 := by
        intro hh
        have : p.1 ∈ rest.map Prod.fst := List.mem_map.mpr ⟨p, hmem, rfl⟩
        rw [List.map_cons] at h
        exact (List.nodup_cons.mp h).1 (hh ▸ this)
      simp only [lookupA, if_neg hk]
      exact ih (List.nodup_cons.mp (by rw [List.map_cons] at h; exact h)).2
        hmem

/-- C2: running any write sequence against a fresh writer yields, for each
file, exactly the events whose timestamp truncated to the hour formats to
that file's bucket label, in write order; the bucket labels are pairwise
distinct, every written event's bucket has a file and no other file
exists, and the number of files equals the number of distinct hour buckets
among the events. -/
theorem c2_writer_rotation (evs : List Ev) :
    (∀ p ∈ (writeAll evs).files,
      p.2 = evs.filter (fun e => decide (hourBucketStr e.ts = p.1)))
    ∧ ((writeAll evs).files.map Prod.fst).Nodup
    ∧ (∀ b, b ∈ (writeAll evs).files.map Prod.fst ↔
        b ∈ evs.map (fun e => hourBucketStr e.ts))
    ∧ (writeAll evs).files.length =
        (evs.map (fun e => hourBucketStr e.ts)).dedup.length := by
  have hfiles : (writeAll evs).files = evs.foldl bstep [] :=
    writeAll_files_eq evs initW
  have hnodup : ((writeAll evs).files.map Prod.fst).Nodup := by
    rw [hfiles]
    exact nodup_keys_foldl_bstep evs [] (by simp)
  have hmem : ∀ b, b ∈ (writeAll evs).files.map Prod.fst ↔
      b ∈ evs.map (fun e => hourBucketStr e.ts) := by
    intro b
    rw [hfiles, mem_keys_foldl_bstep]
    simp
  refine ⟨?_, hnodup, hmem, ?_⟩
  · intro p hp
    have hl : lookupA (writeAll evs).files p.1 = some p.2 :=
      lookupA_of_mem _ hnodup p hp
    rw [hfiles, lookupA_foldl_bstep] at hl
    have hnone : lookupA ([] : List (String × List Ev)) p.1 = none := rfl
    rw [hnone] at hl
    cases h3 : evs.filter (fun e => decide (hourBucketStr e.ts = p.1)) with
    | nil =>
      rw [h3] at hl
      cases hl
    | cons x xs =>
      rw [h3] at hl
      simpa using hl.symm
  · have h1 : (writeAll evs).files.length =
        ((writeAll evs).files.map Prod.fst).length := by simp
    have h2 : ((writeAll evs).files.map Prod.fst).toFinset =
        (evs.map (fun e => hourBucketStr e.ts)).dedup.toFinset := by
      ext b
      simp only [List.mem_toFinset, List.mem_dedup]
      exact hmem b
    rw [h1, ← List.toFinset_card_of_nodup hnodup, h2,
      List.toFinset_card_of_nodup (List.nodup_dedup _)]

/-- Witness for C2: three writes across two hour buckets produce the two
bucket files, each holding its own events in write order. -/
theorem c2_writer_rotation_witness :
    (writeAll [⟨0, "a"⟩, ⟨1800000000, "b"⟩, ⟨3700000000, "c"⟩]).files =
      [("1970-01-01_00", [⟨0, "a"⟩, ⟨1800000000, "b"⟩]),
       ("1970-01-01_01", [⟨3700000000, "c"⟩])] ∧
    ([⟨0, "a"⟩, ⟨1800000000, "b"⟩] : List Ev) =
      [⟨0, "a"⟩, ⟨1800000000, "b"⟩, ⟨3700000000, "c"⟩].filter
        (fun e => decide (hourBucketStr e.ts = "1970-01-01_00")) := by
  constructor
  · decide
  · exact (c2_writer_rotation [⟨0, "a"⟩, ⟨1800000000, "b"⟩, ⟨3700000000, "c"⟩]
      ).1 ("1970-01-01_00", [⟨0, "a"⟩, ⟨1800000000, "b"⟩])
      (by rw [show (writeAll
            [⟨0, "a"⟩, ⟨1800000000, "b"⟩, ⟨3700000000, "c"⟩]).files =
          [("1970-01-01_00", [⟨0, "a"⟩, ⟨1800000000, "b"⟩]),
           ("1970-01-01_01", [⟨3700000000, "c"⟩])] by decide]
          exact List.mem_cons_self _ _)

/-! ## Claim C1: hours-mode window selection -/

theorem pyStrLeL_refl (l : List Char) : pyStrLeL l l = true := by
  induction l with
  | nil => rfl
  | cons a as ih => simp [pyStrLeL, ih]

theorem pyStrLeL_total (x : List Char) :
    ∀ y, pyStrLeL x y = true ∨ pyStrLeL y x = true := by
  induction x with
  | nil => intro y; exact Or.inl rfl
  | cons a as ih =>
    intro y
    cases y with
    | nil => exact Or.inr rfl
    | cons b bs =>
      by_cases hab : a = b
      · subst hab
        rcases ih bs with h | h
        · exact Or.inl (by simp [pyStrLeL, h])
        · exact Or.inr (by simp [pyStrLeL, h])
      · rcases lt_or_gt_of_ne hab with h | h
        · exact Or.inl (by simp [pyStrLeL, hab, h])
        · have hba : ¬ b = a := fun hh => hab hh.symm
          exact Or.inr (by simp [pyStrLeL, hba, h])

theorem pyStrLeL_trans (x : List Char) :
    ∀ y z, pyStrLeL x y = true → pyStrLeL y z = true →
      pyStrLeL x z = true := by
  induction x with
  | nil => intro y z _ _; rfl
  | cons a as ih =>
    intro y z h1 h2
    cases y with
    | nil => simp [pyStrLeL] at h1
    | cons b bs =>
      cases z with
      | nil => simp [pyStrLeL] at h2
      | cons c cs =>
        by_cases hab : a = b
        · subst hab
          by_cases hbc : a = c
          · subst hbc
            simp only [pyStrLeL, if_pos rfl] at h1 h2 ⊢
            exact ih bs cs h1 h2
          · simp only [pyStrLeL, if_pos rfl] at h1
            simp only [pyStrLeL, if_neg hbc] at h2 ⊢
            exact h2
        · simp only [pyStrLeL, if_neg hab] at h1
          have hab' : a < b := of_decide_eq_true h1
          by_cases hbc : b = c
          · subst hbc
            have hac : ¬ a = b := hab
            simp only [pyStrLeL, if_neg hac]
            exact decide_eq_true hab'
          · simp only [pyStrLeL, if_neg hbc] at h2
            have hbc' : b < c := of_decide_eq_true h2
            have hac' : a < c := lt_trans hab' hbc'
            have hac : ¬ a = c := ne_of_lt hac'
            simp only [pyStrLeL, if_neg hac]
            exact decide_eq_true hac'

theorem pyStrLe_refl (s : String) : pyStrLe s s = true := pyStrLeL_refl s.data

theorem pyStrLe_total (a b : String) :
    pyStrLe a b = true ∨ pyStrLe b a = true := pyStrLeL_total a.data b.data

theorem pyStrLe_trans (a b c : String) (h1 : pyStrLe a b = true)
    (h2 : pyStrLe b c = true) : pyStrLe a c = true :=
  pyStrLeL_trans a.data b.data c.data h1 h2

/-- In a `pyStrLe`-sorted list, the last element dominates every
element. -/
theorem sorted_pyStrLe_getLast (l : List String)
    (hs : List.Sorted (fun a b => pyStrLe a b = true) l) (m : String)
    (hm : l.getLast? = some m) : ∀ x ∈ l, pyStrLe x m = true := by
  induction l with
  | nil => cases hm
  | cons a rest ih =>
    cases rest with
    | nil =>
      intro x hx
      have hma : m = a := by
        simp only [List.getLast?_singleton, Option.some.injEq] at hm
        exact hm.symm
      have hxa : x = a := by simpa using hx
      rw [hxa, hma]
      exact pyStrLe_refl a
    | cons b bs =>
      have hm' : (b :: bs).getLast? = some m := by
        rw [List.getLast?_cons_cons] at hm
        exact hm
      intro x hx
      rcases List.mem_cons.mp hx with rfl | hmem
      · have hmmem : m ∈ b :: bs := by
          obtain ⟨hne, heq⟩ := List.mem_getLast?_eq_getLast hm'
          rw [heq]
          exact List.getLast_mem hne
        exact (List.sorted_cons.mp hs).1 m hmmem
      · exact ih (List.sorted_cons.mp hs).2 hm' x hmem

/-- `selectFilesHours` with its local bindings expanded. -/
theorem selectFilesHours_eq (files : List String) (now n : Int) :
    selectFilesHours files now n =
      (if ((files.insertionSort (fun a b => pyStrLe a b = true)).filter
            (bucketGE (hourFloor
              (now - max 1 (min n MAX_LOOKBACK_HOURS) * usecPerHour)))).isEmpty
       then
         match (files.insertionSort (fun a b => pyStrLe a b = true)).getLast?
           with
         | some f => [f]
         | none => []
       else (files.insertionSort (fun a b => pyStrLe a b = true)).filter
         (bucketGE (hourFloor
           (now - max 1 (min n MAX_LOOKBACK_HOURS) * usecPerHour)))) := rfl

/-- C1: hours-mode selection clamps the lookback to `[1, 168]`; against
the cutoff `now − clamp(n) hours` truncated to the top of the hour it
selects exactly the files whose filename-parsed bucket timestamp is at or
after the cutoff; when no file qualifies it selects exactly the single
lexicographically-last file; and the selection is nonempty whenever at
least one file exists. -/
theorem c1_window_selection (files : List String) (now n : Int) :
    selectFilesHours files now n =
        selectFilesHours files now (max 1 (min n MAX_LOOKBACK_HOURS))
    ∧ (∀ f ∈ selectFilesHours files now n, f ∈ files)
    ∧ ((∃ f ∈ files, bucketGE (hourFloor
          (now - max 1 (min n MAX_LOOKBACK_HOURS) * usecPerHour)) f = true) →
        ∀ f, f ∈ selectFilesHours files now n ↔
          f ∈ files ∧ bucketGE (hourFloor
            (now - max 1 (min n MAX_LOOKBACK_HOURS) * usecPerHour)) f = true)
    ∧ ((∀ f ∈ files, ¬ bucketGE (hourFloor
          (now - max 1 (min n MAX_LOOKBACK_HOURS) * usecPerHour)) f = true) →
        files ≠ [] →
        ∃ m, selectFilesHours files now n = [m] ∧ m ∈ files ∧
          ∀ f ∈ files, pyStrLe f m = true)
    ∧ (files ≠ [] → selectFilesHours files now n ≠ []) := by
  haveI instTot : IsTotal String (fun a b => pyStrLe a b = true) :=
    ⟨pyStrLe_total⟩
  haveI instTrans : IsTrans String (fun a b => pyStrLe a b = true) :=
    ⟨pyStrLe_trans⟩
  have hclamp : max 1 (min (max 1 (min n MAX_LOOKBACK_HOURS))
      MAX_LOOKBACK_HOURS) = max 1 (min n MAX_LOOKBACK_HOURS) := by
    unfold MAX_LOOKBACK_HOURS
    rcases le_total n 168 with h | h <;> rcases le_total 1 n with h2 | h2 <;>
      simp [min_def, max_def] <;> omega
  have hc1 : selectFilesHours files now n =
      selectFilesHours files now (max 1 (min n MAX_LOOKBACK_HOURS)) := by
    rw [selectFilesHours_eq files now n,
      selectFilesHours_eq files now (max 1 (min n MAX_LOOKBACK_HOURS)), hclamp]
  have hmemfs : ∀ f, f ∈ files.insertionSort (fun a b => pyStrLe a b = true)
      ↔ f ∈ files := fun f => List.mem_insertionSort _
  have hsub : ∀ f ∈ selectFilesHours files now n, f ∈ files := by
    intro f hf
    rw [selectFilesHours_eq] at hf
    by_cases he : ((files.insertionSort (fun a b => pyStrLe a b = true)).filter
        (bucketGE (hourFloor
          (now - max 1 (min n MAX_LOOKBACK_HOURS) * usecPerHour)))).isEmpty =
        true
    · rw [if_pos he] at hf
      cases hlast : (files.insertionSort
          (fun a b => pyStrLe a b = true)).getLast? with
      | none =>
        rw [hlast] at hf
        cases hf
      | some m =>
        rw [hlast] at hf
        have : f = m := by simpa using hf
        subst this
        exact (hmemfs f).mp (by
          obtain ⟨hne, heq⟩ := List.mem_getLast?_eq_getLast hlast
          rw [heq]
          exact List.getLast_mem hne)
    · rw [if_neg he] at hf
      exact (hmemfs f).mp (List.mem_filter.mp hf).1
  have hfilter : ∀ f,
      f ∈ (files.insertionSort (fun a b => pyStrLe a b = true)).filter
        (bucketGE (hourFloor
          (now - max 1 (min n MAX_LOOKBACK_HOURS) * usecPerHour))) ↔
      f ∈ files ∧ bucketGE (hourFloor
        (now - max 1 (min n MAX_LOOKBACK_HOURS) * usecPerHour)) f = true := by
    intro f
    rw [List.mem_filter, hmemfs]
  have hc3 : (∃ f ∈ files, bucketGE (hourFloor
        (now - max 1 (min n MAX_LOOKBACK_HOURS) * usecPerHour)) f = true) →
      ∀ f, f ∈ selectFilesHours files now n ↔
        f ∈ files ∧ bucketGE (hourFloor
          (now - max 1 (min n MAX_LOOKBACK_HOURS) * usecPerHour)) f = true := by
    rintro ⟨f0, hf0, hb0⟩ f
    have hne : ((files.insertionSort (fun a b => pyStrLe a b = true)).filter
        (bucketGE (hourFloor
          (now - max 1 (min n MAX_LOOKBACK_HOURS) * usecPerHour)))).isEmpty =
        false := by
      rw [List.isEmpty_eq_false_iff_exists_mem]
      exact ⟨f0, (hfilter f0).mpr ⟨hf0, hb0⟩⟩
    rw [selectFilesHours_eq, hne]
    simp only [Bool.false_eq_true, if_false]
    exact hfilter f
  have hc4 : (∀ f ∈ files, ¬ bucketGE (hourFloor
        (now - max 1 (min n MAX_LOOKBACK_HOURS) * usecPerHour)) f = true) →
      files ≠ [] →
      ∃ m, selectFilesHours files now n = [m] ∧ m ∈ files ∧
        ∀ f ∈ files, pyStrLe f m = true := by
    intro hall hne
    have hfe : (files.insertionSort (fun a b => pyStrLe a b = true)).filter
        (bucketGE (hourFloor
          (now - max 1 (min n MAX_LOOKBACK_HOURS) * usecPerHour))) = [] := by
      rw [List.filter_eq_nil_iff]
      intro f hf
      simpa using hall f ((hmemfs f).mp hf)
    have hsne : files.insertionSort (fun a b => pyStrLe a b = true) ≠ [] := by
      intro hh
      have := List.length_insertionSort (fun a b => pyStrLe a b = true) files
      rw [hh] at this
      exact hne (List.length_eq_zero.mp this.symm)
    obtain ⟨m, hm⟩ : ∃ m, (files.insertionSort
        (fun a b => pyStrLe a b = true)).getLast? = some m :=
      ⟨_, List.getLast?_eq_getLast_of_ne_nil hsne⟩
    refine ⟨m, ?_, ?_, ?_⟩
    · rw [selectFilesHours_eq, hfe]
      simp only [List.isEmpty_nil, if_true]
      rw [hm]
    · exact (hmemfs m).mp (by
        obtain ⟨hn2, heq⟩ := List.mem_getLast?_eq_getLast hm
        rw [heq]
        exact List.getLast_mem hn2)
    · intro f hf
      exact sorted_pyStrLe_getLast _
        (List.sorted_insertionSort _ files) m hm f ((hmemfs f).mpr hf)
  refine ⟨hc1, hsub, hc3, hc4, ?_⟩
  intro hne
  by_cases hex : ∃ f ∈ files, bucketGE (hourFloor
      (now - max 1 (min n MAX_LOOKBACK_HOURS) * usecPerHour)) f = true
  · obtain ⟨f0, hf0, hb0⟩ := hex
    intro hnil
    have := (hc3 ⟨f0, hf0, hb0⟩ f0).mpr ⟨hf0, hb0⟩
    rw [hnil] at this
    cases this
  · push_neg at hex
    obtain ⟨m, hm, _, _⟩ := hc4 (by simpa using hex) hne
    rw [hm]
    simp

/-- Witness for C1: a directory with one in-window and one out-of-window
file; the in-window file is selected, and with every file out of window
the lexicographically-last file is selected. -/
theorem c1_window_selection_witness :
    selectFilesHours ["l_2024-01-01_05.ndjson", "l_2024-01-01_03.ndjson"]
        1704090600000000 1 = ["l_2024-01-01_05.ndjson"] ∧
    selectFilesHours ["l_2024-01-01_05.ndjson", "l_2024-01-01_03.ndjson"]
        1704436200000000 1 = ["l_2024-01-01_05.ndjson"] := by
  constructor
  · have h := (c1_window_selection
      ["l_2024-01-01_05.ndjson", "l_2024-01-01_03.ndjson"]
      1704090600000000 1).2.2.1
      (⟨"l_2024-01-01_05.ndjson", by decide, by decide⟩)
    have h5 := (h "l_2024-01-01_05.ndjson").mpr ⟨by decide, by decide⟩
    have h3 : "l_2024-01-01_03.ndjson" ∉
        selectFilesHours ["l_2024-01-01_05.ndjson", "l_2024-01-01_03.ndjson"]
          1704090600000000 1 := by
      intro hh
      have := ((h "l_2024-01-01_03.ndjson").mp hh).2
      exact absurd this (by decide)
    decide
  · obtain ⟨m, hm, hmem, hmax⟩ := (c1_window_selection
      ["l_2024-01-01_05.ndjson", "l_2024-01-01_03.ndjson"]
      1704436200000000 1).2.2.2.1
      (by decide) (by decide)
    have hm5 : m = "l_2024-01-01_05.ndjson" := by
      have h1 := hmax "l_2024-01-01_05.ndjson" (by decide)
      rcases List.mem_pair.mp hmem with h | h
      · exact h
      · subst h
        exact absurd h1 (by decide)
    rw [hm5] at hm
    exact hm

/-! ## Claim C6: message sort order and the unparseable-timestamp fallback -/

/-- C6 counterexample: the sort fallback for an unparseable timestamp is
the Unix epoch (`datetime.fromtimestamp(0)`), not the oldest possible
instant — against a message with a parseable pre-epoch timestamp the
unparseable one sorts *first*, not last. -/
theorem c6_counterexample :
    to_utc (some "not-a-timestamp") = none ∧
    (to_utc (some "1969-12-31T23:00:00+00:00")).isSome = true ∧
    ((build_messages c6Bundle true [] none none none false none 1000).1.map
        (fun r => r.ts)) =
      [some "not-a-timestamp", some "1969-12-31T23:00:00+00:00"] := by
  refine ⟨rfl, rfl, ?_⟩
  decide

/-- Rows built from the sorted-then-truncated message list are sorted by
the epoch-fallback key, descending. -/
theorem sorted_msg_rows (msgs : List Msg) (my : Option String) (k : Nat) :
    List.Sorted
      (fun r1 r2 : MsgRow => (to_utc r2.ts).getD 0 ≤ (to_utc r1.ts).getD 0)
      (((msgs.insertionSort
          (fun a b => msgSortKey b ≤ msgSortKey a)).take k).map
        (mkMsgRow my)) := by
  haveI : IsTotal Msg (fun a b => msgSortKey b ≤ msgSortKey a) :=
    ⟨fun a b => le_total _ _⟩
  haveI : IsTrans Msg (fun a b => msgSortKey b ≤ msgSortKey a) :=
    ⟨fun a b c h1 h2 => le_trans h2 h1⟩
  have h1 := List.sorted_insertionSort
    (fun a b : Msg => msgSortKey b ≤ msgSortKey a) msgs
  have h2 : List.Sorted (fun a b : Msg => msgSortKey b ≤ msgSortKey a)
      ((msgs.insertionSort (fun a b => msgSortKey b ≤ msgSortKey a)).take k) :=
    List.Pairwise.sublist (List.take_sublist k _) h1
  rw [List.Sorted, List.pairwise_map]
  exact h2

/-- C6 (amended): the messages query returns rows sorted by timestamp
descending, where a message whose timestamp string does not parse is keyed
as the Unix epoch (1970-01-01T00:00:00Z) — it therefore appears after
every message with a post-epoch parseable timestamp, but before messages
with pre-epoch timestamps, not unconditionally last. -/
theorem c6_sort_epoch_fallback (b : DataBundle) (inc : Bool)
    (apps : List String) (my fromI toI : Option String) (dm : Bool)
    (txt : Option String) (lim : Int) :
    List.Sorted
      (fun r1 r2 : MsgRow => (to_utc r2.ts).getD 0 ≤ (to_utc r1.ts).getD 0)
      (build_messages b inc apps my fromI toI dm txt lim).1 :=
  sorted_msg_rows _ my _

/-! ## Claim C7: query purity and the bundle frame -/

/-- C7 counterexample: with encryption included and no other filter
active, the message query's in-place sort reorders the bundle's message
list — the bundle is not left unchanged. -/
theorem c7_counterexample :
    (build_messages c7Bundle true [] none none none false none 1000
      ).2.messages ≠ c7Bundle.messages := by
  intro h
  have h2 := congrArg (List.map (fun m : Msg => m.ts)) h
  exact absurd h2 (by decide)

/-- C7 (amended): each view's result is a function of the bundle and its
parameters alone; the overview and node-detail queries leave the bundle
unchanged; the message query leaves the bundle unchanged whenever at least
one filter is active (encryption excluded, app filter, from, to, dm-only,
or text search), and with no filter active it replaces the bundle's
message list in place by its timestamp-descending reordering — a
permutation of the original messages, not a frame-preserving call. -/
theorem c7_frame :
    (∀ (b : DataBundle) (inc : Bool) (apps : List String),
      (build_overview_full b inc apps).2 = b)
    ∧ (∀ (b : DataBundle) (nid : String) (inc : Bool) (apps : List String),
      (build_node_detail_full b nid inc apps).2 = b)
    ∧ (∀ (b : DataBundle) (inc : Bool) (apps : List String)
        (my fromI toI : Option String) (dm : Bool) (txt : Option String)
        (lim : Int),
        (!inc || !apps.isEmpty || pyTruthyS fromI || pyTruthyS toI || dm ||
          pyTruthyS txt) = true →
        (build_messages b inc apps my fromI toI dm txt lim).2 = b)
    ∧ (∀ (b : DataBundle) (inc : Bool) (apps : List String)
        (my fromI toI : Option String) (dm : Bool) (txt : Option String)
        (lim : Int),
        (!inc || !apps.isEmpty || pyTruthyS fromI || pyTruthyS toI || dm ||
          pyTruthyS txt) = false →
        (build_messages b inc apps my fromI toI dm txt lim).2 =
          { b with messages := (b.messages.insertionSort
              (fun a b => msgSortKey b ≤ msgSortKey a)) }
        ∧ (build_messages b inc apps my fromI toI dm txt lim
            ).2.messages.Perm b.messages) := by
  refine ⟨fun b inc apps => rfl, fun b nid inc apps => rfl,
    fun b inc apps my fromI toI dm txt lim h => ?_,
    fun b inc apps my fromI toI dm txt lim h => ?_⟩
  · unfold build_messages
    simp only [h, if_true]
  · have hparts := h
    simp only [Bool.or_eq_false_iff, Bool.not_eq_false'] at hparts
    obtain ⟨⟨⟨⟨⟨hinc, happs⟩, hfrom⟩, hto⟩, hdm⟩, htxt⟩ := hparts
    have hmain : (build_messages b inc apps my fromI toI dm txt lim).2 =
        { b with messages := (b.messages.insertionSort
            (fun a b => msgSortKey b ≤ msgSortKey a)) } := by
      unfold build_messages
      simp only [h, hinc, happs, hfrom, hto, hdm, htxt, filterEnc,
        filterApps, if_true, if_false, Bool.false_eq_true]
      simp
    refine ⟨hmain, ?_⟩
    rw [hmain]
    exact List.perm_insertionSort _ _

/-- Witness for C7: an active filter (encryption excluded) leaves the
concrete bundle untouched. -/
theorem c7_frame_witness :
    (build_messages c7Bundle false [] none none none false none 1000).2 =
      c7Bundle :=
  c7_frame.2.2.1 c7Bundle false [] none none none false none 1000 (by decide)

/-! ## Claim C5: latest telemetry is computed over the unfiltered bundle -/

theorem lookupA_updAssoc_self {β : Type} (fs : List (String × β)) (k : String)
    (v : β) : lookupA (updAssoc fs k v) k = some v := by
  induction fs with
  | nil => simp [updAssoc, lookupA]
  | cons p rest ih =>
    obtain ⟨k0, v0⟩ := p
    by_cases h : k0 = k
    · subst h
      simp [updAssoc, lookupA]
    · simp [updAssoc, lookupA, h, ih]

theorem lookupA_updAssoc_ne {β : Type} (fs : List (String × β))
    (k k' : String) (v : β) (h : k' ≠ k) :
    lookupA (updAssoc fs k v) k' = lookupA fs k' := by
  induction fs with
  | nil =>
    have hkk : ¬ k = k' := fun hh => h hh.symm
    simp [updAssoc, lookupA, hkk]
  | cons p rest ih =>
    obtain ⟨k0, v0⟩ := p
    by_cases h0 : k0 = k
    · subst h0
      have hkk : ¬ k0 = k' := fun hh => h hh.symm
      simp [updAssoc, lookupA, hkk]
    · by_cases hk : k0 = k'
      · subst hk
        simp [updAssoc, lookupA, h0]
      · simp [updAssoc, lookupA, h0, hk, ih]

theorem lookupA_append {β : Type} (l1 l2 : List (String × β)) (k : String) :
    lookupA (l1 ++ l2) k =
      match lookupA l1 k with
      | some v => some v
      | none => lookupA l2 k := by
  induction l1 with
  | nil => simp [lookupA]
  | cons p rest ih =>
    obtain ⟨k0, v0⟩ := p
    by_cases h : k0 = k
    · subst h
      simp [lookupA]
    · simp [lookupA, h, ih]

theorem devObj_eq_some {m : Msg} {o : List (String × JVal)}
    (h : devObj m = some o) :
    m.telemetry.deviceMetrics = some (JVal.jobj o) := by
  unfold devObj at h
  revert h
  cases hdm : m.telemetry.deviceMetrics with
  | none => intro h; cases h
  | some v =>
    cases v with
    | jobj o2 =>
      intro h
      simp only [Option.some.injEq] at h
      rw [h]
    | null => intro h; cases h
    | jb bv => intro h; cases h
    | jnum qv => intro h; cases h
    | jstr sv => intro h; cases h
    | jarr av => intro h; cases h

theorem envObj_eq_some {m : Msg} {o : List (String × JVal)}
    (h : envObj m = some o) :
    m.telemetry.environmentMetrics = some (JVal.jobj o) := by
  unfold envObj at h
  revert h
  cases hdm : m.telemetry.environmentMetrics with
  | none => intro h; cases h
  | some v =>
    cases v with
    | jobj o2 =>
      intro h
      simp only [Option.some.injEq] at h
      rw [h]
    | null => intro h; cases h
    | jb bv => intro h; cases h
    | jnum qv => intro h; cases h
    | jstr sv => intro h; cases h
    | jarr av => intro h; cases h

theorem devStep_lookup (acc : List (String × TelRec)) (m : Msg)
    (nid : String) :
    lookupA (devStep acc m) nid =
      if devQual nid m = true then some (devRecOf m)
      else lookupA acc nid := by
  by_cases hq : devQual nid m = true
  · rw [if_pos hq]
    have hparts := hq
    unfold devQual at hparts
    rw [Bool.and_eq_true_iff, Bool.and_eq_true_iff] at hparts
    obtain ⟨⟨hfn, hft⟩, hos⟩ := hparts
    have hfn2 : m.from_id = some nid := of_decide_eq_true hfn
    obtain ⟨o, ho⟩ := Option.isSome_iff_exists.mp hos
    have hdm := devObj_eq_some ho
    have htel : m.telemetry.truthy = true := by
      unfold Telem.truthy
      rw [hdm]
      simp
    unfold devStep
    rw [if_pos (by rw [hft, htel]; rfl)]
    simp only [hdm]
    have hkey : m.from_id.getD "" = nid := by rw [hfn2]; rfl
    rw [hkey, lookupA_updAssoc_self]
    unfold devRecOf
    rw [ho]
    rfl
  · rw [if_neg hq]
    unfold devStep
    by_cases h1 : (pyTruthyS m.from_id && m.telemetry.truthy) = true
    · rw [if_pos h1]
      obtain ⟨hft, _⟩ := Bool.and_eq_true_iff.mp h1
      cases hdm : m.telemetry.deviceMetrics with
      | none => rfl
      | some v =>
        cases v with
        | jobj o =>
          have ho : devObj m = some o := by unfold devObj; rw [hdm]
          cases hfi : m.from_id with
          | none => rw [hfi] at hft; simp [pyTruthyS] at hft
          | some s =>
            have hft2 : pyTruthyS (some s) = true := hfi ▸ hft
            have hsn : ¬ s = nid := by
              intro hh
              apply hq
              unfold devQual
              rw [hfi, ho, hh]
              rw [hh] at hft2
              simp [hft2]
            exact lookupA_updAssoc_ne acc s nid _ (fun hh => hsn hh.symm)
        | null => rfl
        | jb bv => rfl
        | jnum qv => rfl
        | jstr sv => rfl
        | jarr av => rfl
    · rw [if_neg h1]

theorem envStep_lookup (acc : List (String × TelRec)) (m : Msg)
    (nid : String) :
    lookupA (envStep acc m) nid =
      if envQual nid m = true then some (envRecOf m)
      else lookupA acc nid := by
  by_cases hq : envQual nid m = true
  · rw [if_pos hq]
    have hparts := hq
    unfold envQual at hparts
    rw [Bool.and_eq_true_iff, Bool.and_eq_true_iff] at hparts
    obtain ⟨⟨hfn, hft⟩, hos⟩ := hparts
    have hfn2 : m.from_id = some nid := of_decide_eq_true hfn
    obtain ⟨o, ho⟩ := Option.isSome_iff_exists.mp hos
    have hdm := envObj_eq_some ho
    have htel : m.telemetry.truthy = true := by
      unfold Telem.truthy
      rw [hdm]
      simp
    unfold envStep
    rw [if_pos (by rw [hft, htel]; rfl)]
    simp only [hdm]
    have hkey : m.from_id.getD "" = nid := by rw [hfn2]; rfl
    rw [hkey, lookupA_updAssoc_self]
    unfold envRecOf
    rw [ho]
    rfl
  · rw [if_neg hq]
    unfold envStep
    by_cases h1 : (pyTruthyS m.from_id && m.telemetry.truthy) = true
    · rw [if_pos h1]
      obtain ⟨hft, _⟩ := Bool.and_eq_true_iff.mp h1
      cases hdm : m.telemetry.environmentMetrics with
      | none => rfl
      | some v =>
        cases v with
        | jobj o =>
          have ho : envObj m = some o := by unfold envObj; rw [hdm]
          cases hfi : m.from_id with
          | none => rw [hfi] at hft; simp [pyTruthyS] at hft
          | some s =>
            have hft2 : pyTruthyS (some s) = true := hfi ▸ hft
            have hsn : ¬ s = nid := by
              intro hh
              apply hq
              unfold envQual
              rw [hfi, ho, hh]
              rw [hh] at hft2
              simp [hft2]
            exact lookupA_updAssoc_ne acc s nid _ (fun hh => hsn hh.symm)
        | null => rfl
        | jb bv => rfl
        | jnum qv => rfl
        | jstr sv => rfl
        | jarr av => rfl
    · rw [if_neg h1]

theorem devLast_char (msgs : List Msg) :
    ∀ (acc : List (String × TelRec)) (nid : String),
      lookupA (msgs.foldl devStep acc) nid =
        match (msgs.filter (devQual nid)).getLast? with
        | some m => some (devRecOf m)
        | none => lookupA acc nid := by
  induction msgs with
  | nil => intro acc nid; simp
  | cons m rest ih =>
    intro acc nid
    have h1 : (m :: rest).foldl devStep acc =
        rest.foldl devStep (devStep acc m) := rfl
    rw [h1, ih]
    by_cases hq : devQual nid m = true
    · have hf : (m :: rest).filter (devQual nid) =
          m :: rest.filter (devQual nid) := by
        simp [List.filter_cons, hq]
      cases h3 : rest.filter (devQual nid) with
      | nil =>
        simp only [hf, h3, List.getLast?_nil, List.getLast?_singleton]
        rw [devStep_lookup, if_pos hq]
      | cons x xs =>
        simp only [hf, h3, List.getLast?_cons_cons]
        rw [List.getLast?_eq_getLast_of_ne_nil (List.cons_ne_nil x xs)]
    · have hf : (m :: rest).filter (devQual nid) =
          rest.filter (devQual nid) := by
        simp [List.filter_cons, hq]
      cases h3 : rest.filter (devQual nid) with
      | nil =>
        simp only [hf, h3, List.getLast?_nil]
        rw [devStep_lookup, if_neg hq]
      | cons x xs =>
        simp only [hf, h3]
        rw [List.getLast?_eq_getLast_of_ne_nil (List.cons_ne_nil x xs)]

theorem envLast_char (msgs : List Msg) :
    ∀ (acc : List (String × TelRec)) (nid : String),
      lookupA (msgs.foldl envStep acc) nid =
        match (msgs.filter (envQual nid)).getLast? with
        | some m => some (envRecOf m)
        | none => lookupA acc nid := by
  induction msgs with
  | nil => intro acc nid; simp
  | cons m rest ih =>
    intro acc nid
    have h1 : (m :: rest).foldl envStep acc =
        rest.foldl envStep (envStep acc m) := rfl
    rw [h1, ih]
    by_cases hq : envQual nid m = true
    · have hf : (m :: rest).filter (envQual nid) =
          m :: rest.filter (envQual nid) := by
        simp [List.filter_cons, hq]
      cases h3 : rest.filter (envQual nid) with
      | nil =>
        simp only [hf, h3, List.getLast?_nil, List.getLast?_singleton]
        rw [envStep_lookup, if_pos hq]
      | cons x xs =>
        simp only [hf, h3, List.getLast?_cons_cons]
        rw [List.getLast?_eq_getLast_of_ne_nil (List.cons_ne_nil x xs)]
    · have hf : (m :: rest).filter (envQual nid) =
          rest.filter (envQual nid) := by
        simp [List.filter_cons, hq]
      cases h3 : rest.filter (envQual nid) with
      | nil =>
        simp only [hf, h3, List.getLast?_nil]
        rw [envStep_lookup, if_neg hq]
      | cons x xs =>
        simp only [hf, h3]
        rw [List.getLast?_eq_getLast_of_ne_nil (List.cons_ne_nil x xs)]

/-- C5: the latest device/environment telemetry records attached to
overview rows are computed from the bundle's full, unfiltered message
sequence — the map is a file-order scan with the last qualifying record
per from-id winning — so any two rows for the same node id, under any two
choices of the encryption/app filters, report identical telemetry. -/
theorem c5_telemetry_unfiltered (b : DataBundle) (inc1 inc2 : Bool)
    (apps1 apps2 : List String) :
    (∀ row ∈ (build_overview b inc1 apps1).nodes,
      row.device = lookupA (b.messages.foldl devStep []) row.node_id ∧
      row.environment = lookupA (b.messages.foldl envStep []) row.node_id)
    ∧ (∀ nid : String,
        lookupA (b.messages.foldl devStep []) nid =
          ((b.messages.filter (devQual nid)).getLast?).map devRecOf ∧
        lookupA (b.messages.foldl envStep []) nid =
          ((b.messages.filter (envQual nid)).getLast?).map envRecOf)
    ∧ (∀ r1 ∈ (build_overview b inc1 apps1).nodes,
       ∀ r2 ∈ (build_overview b inc2 apps2).nodes,
        r1.node_id = r2.node_id →
        r1.device = r2.device ∧ r1.environment = r2.environment) := by
  have hrow : ∀ (inc : Bool) (apps : List String),
      ∀ row ∈ (build_overview b inc apps).nodes,
        row.device = lookupA (b.messages.foldl devStep []) row.node_id ∧
        row.environment = lookupA (b.messages.foldl envStep []) row.node_id := by
    intro inc apps row hrow
    have hmem : row ∈ ((byNode (filterApps apps (filterEnc inc b.messages))
        ).map (mkNodeRow (b.messages.foldl devStep [])
          (b.messages.foldl envStep []))) :=
      (List.mem_insertionSort _).mp hrow
    obtain ⟨p, _, hp⟩ := List.mem_map.mp hmem
    subst hp
    exact ⟨rfl, rfl⟩
  refine ⟨hrow inc1 apps1, ?_, ?_⟩
  · intro nid
    constructor
    · rw [devLast_char]
      cases h : (b.messages.filter (devQual nid)).getLast? <;> simp [h, lookupA]
    · rw [envLast_char]
      cases h : (b.messages.filter (envQual nid)).getLast? <;> simp [h, lookupA]
  · intro r1 h1 r2 h2 hid
    obtain ⟨hd1, he1⟩ := hrow inc1 apps1 r1 h1
    obtain ⟨hd2, he2⟩ := hrow inc2 apps2 r2 h2
    rw [hd1, hd2, he1, he2, hid]
    exact ⟨rfl, rfl⟩

/-- Witness for C5: with encryption excluded, node `!a`'s overview row
still reports the latest (encrypted) telemetry reading, taken from the
unfiltered scan. -/
theorem c5_telemetry_unfiltered_witness :
    (⟨"!a", some "2024-01-01T01:00:00+00:00", some "2024-01-01T01:00:00+00:00",
      1, none, none, [("TELEMETRY_APP", 1)],
      some ⟨some "2024-01-01T02:00:00+00:00", [("batteryLevel", JVal.jnum 75)]⟩,
      none⟩ : NodeRow).device =
      lookupA (c5Bundle.messages.foldl devStep []) "!a" := by
  have hmem : (⟨"!a", some "2024-01-01T01:00:00+00:00",
      some "2024-01-01T01:00:00+00:00", 1, none, none, [("TELEMETRY_APP", 1)],
      some ⟨some "2024-01-01T02:00:00+00:00", [("batteryLevel", JVal.jnum 75)]⟩,
      none⟩ : NodeRow) ∈ (build_overview c5Bundle false []).nodes := by
    rw [show (build_overview c5Bundle false []).nodes =
      [⟨"!a", some "2024-01-01T01:00:00+00:00", some "2024-01-01T01:00:00+00:00",
        1, none, none, [("TELEMETRY_APP", 1)],
        some ⟨some "2024-01-01T02:00:00+00:00",
          [("batteryLevel", JVal.jnum 75)]⟩, none⟩] from rfl]
    exact List.mem_singleton.mpr rfl
  exact ((c5_telemetry_unfiltered c5Bundle false true [] []).1 _ hmem).1

/-! ## Claim C4: median reporting in the overview and node-detail views -/

theorem updAssoc_keys {β : Type} (fs : List (String × β)) (k : String)
    (v : β) :
    (updAssoc fs k v).map Prod.fst =
      if k ∈ fs.map Prod.fst then fs.map Prod.fst
      else fs.map Prod.fst ++ [k] := by
  induction fs with
  | nil => simp [updAssoc]
  | cons p rest ih =>
    obtain ⟨k0, v0⟩ := p
    by_cases h0 : k0 = k
    · subst h0
      simp [updAssoc]
    · have hne : ¬ k = k0 := fun hh => h0 hh.symm
      by_cases hb : k ∈ rest.map Prod.fst
      · simp [updAssoc, h0, ih, hb, hne]
      · simp [updAssoc, h0, ih, hb, hne]

theorem nodup_keys_updAssoc {β : Type} (fs : List (String × β)) (k : String)
    (v : β) (h : (fs.map Prod.fst).Nodup) :
    ((updAssoc fs k v).map Prod.fst).Nodup := by
  rw [updAssoc_keys]
  by_cases hb : k ∈ fs.map Prod.fst
  · rw [if_pos hb]
    exact h
  · rw [if_neg hb]
    refine List.Nodup.append h (List.nodup_singleton k) ?_
    intro a ha hain
    rw [List.mem_singleton] at hain
    subst hain
    exact hb ha

theorem lookupA_eq_none_iff {β : Type} (fs : List (String × β)) (k : String) :
    lookupA fs k = none ↔ k ∉ fs.map Prod.fst := by
  induction fs with
  | nil => simp [lookupA]
  | cons p rest ih =>
    obtain ⟨k0, v0⟩ := p
    by_cases h : k0 = k
    · subst h
      simp [lookupA]
    · constructor
      · intro hnone hkin
        rw [List.map_cons, List.mem_cons] at hkin
        rcases hkin with hk | hk
        · exact h hk.symm
        · exact (ih.mp (by simpa [lookupA, h] using hnone)) hk
      · intro hnin
        have hnr : k ∉ rest.map Prod.fst := fun hk => hnin (by simp [hk])
        have h2 := ih.mpr hnr
        simpa [lookupA, h] using h2

theorem byNodeStep_lookup (acc : List (String × GroupRec)) (m : Msg)
    (nid : String) :
    lookupA (byNodeStep acc m) nid =
      if (pyTruthyS m.from_id && decide (m.from_id = some nid)) = true
      then some (updGroup ((lookupA acc nid).getD initGroup) m)
      else lookupA acc nid := by
  unfold byNodeStep
  by_cases hft : pyTruthyS m.from_id = true
  · rw [if_pos hft]
    cases hfi : m.from_id with
    | none => rw [hfi] at hft; simp [pyTruthyS] at hft
    | some s =>
      have hft2 : pyTruthyS (some s) = true := hfi ▸ hft
      simp only [Option.getD_some]
      by_cases hsn : s = nid
      · subst hsn
        have hcond : (pyTruthyS (some s) &&
            decide ((some s : Option String) = some s)) = true := by
          simp [hft2]
        rw [if_pos hcond]
        cases hl : lookupA acc s with
        | some r =>
          exact lookupA_updAssoc_self acc s (updGroup r m)
        | none =>
          show lookupA (acc ++ [(s, updGroup initGroup m)]) s =
            some (updGroup initGroup m)
          rw [lookupA_append, hl]
          simp [lookupA]
      · have hcond : ¬ ((pyTruthyS (some s) &&
            decide ((some s : Option String) = some nid)) = true) := by
          simp [hsn]
        rw [if_neg hcond]
        cases hl : lookupA acc s with
        | some r =>
          exact lookupA_updAssoc_ne acc s nid _ (fun hh => hsn hh.symm)
        | none =>
          show lookupA (acc ++ [(s, updGroup initGroup m)]) nid =
            lookupA acc nid
          rw [lookupA_append]
          cases hl2 : lookupA acc nid with
          | some v => rfl
          | none => simp [lookupA, hsn]
  · rw [if_neg hft]
    have hcond : ¬ ((pyTruthyS m.from_id &&
        decide (m.from_id = some nid)) = true) := by
      intro hh
      exact hft (Bool.and_eq_true_iff.mp hh).1
    rw [if_neg hcond]

/-- The grouped record for `nid` is the fold of `updGroup` over exactly
the messages the grouping pass routes to `nid`. -/
theorem byNode_lookup (msgs : List Msg) :
    ∀ (acc : List (String × GroupRec)) (nid : String),
      lookupA (msgs.foldl byNodeStep acc) nid =
        match lookupA acc nid, groupList msgs nid with
        | none, [] => none
        | o, g => some (g.foldl updGroup (o.getD initGroup)) := by
  induction msgs with
  | nil =>
    intro acc nid
    cases h : lookupA acc nid <;> simp [groupList, h]
  | cons m rest ih =>
    intro acc nid
    have h1 : (m :: rest).foldl byNodeStep acc =
        rest.foldl byNodeStep (byNodeStep acc m) := rfl
    rw [h1, ih]
    by_cases hq : (pyTruthyS m.from_id && decide (m.from_id = some nid)) = true
    · have hg : groupList (m :: rest) nid = m :: groupList rest nid := by
        simp [groupList, List.filter_cons, hq]
      rw [hg]
      have hl := byNodeStep_lookup acc m nid
      rw [if_pos hq] at hl
      rw [hl]
      cases h2 : lookupA acc nid <;>
        cases h3 : groupList rest nid <;>
          simp [h2, h3]
    · have hg : groupList (m :: rest) nid = groupList rest nid := by
        simp [groupList, List.filter_cons, hq]
      rw [hg]
      have hl := byNodeStep_lookup acc m nid
      rw [if_neg hq] at hl
      rw [hl]

theorem nodup_keys_byNode (msgs : List Msg) :
    ∀ acc : List (String × GroupRec), (acc.map Prod.fst).Nodup →
      ((msgs.foldl byNodeStep acc).map Prod.fst).Nodup := by
  induction msgs with
  | nil => exact fun acc h => h
  | cons m rest ih =>
    intro acc h
    have h1 : (m :: rest).foldl byNodeStep acc =
        rest.foldl byNodeStep (byNodeStep acc m) := rfl
    rw [h1]
    apply ih
    unfold byNodeStep
    by_cases hft : pyTruthyS m.from_id = true
    · rw [if_pos hft]
      cases hl : lookupA acc (m.from_id.getD "") with
      | some r =>
        simp only [hl]
        exact nodup_keys_updAssoc acc _ _ h
      | none =>
        simp only [hl]
        have hk : (m.from_id.getD "") ∉ acc.map Prod.fst :=
          (lookupA_eq_none_iff acc _).mp hl
        rw [List.map_append]
        refine List.Nodup.append h (by simp) ?_
        intro a ha hain
        simp only [List.map_cons, List.map_nil, List.mem_singleton] at hain
        subst hain
        exact hk ha
    · rw [if_neg hft]
      exact h

theorem updGroup_rssi (r : GroupRec) (m : Msg) :
    (updGroup r m).rssi_vals = r.rssi_vals ++ (m.rxRssi).toList := by
  unfold updGroup
  cases h1 : to_utc m.ts <;> cases h2 : m.rxRssi <;> cases h3 : m.rxSnr <;>
    simp [h1, h2, h3]

theorem updGroup_snr (r : GroupRec) (m : Msg) :
    (updGroup r m).snr_vals = r.snr_vals ++ (m.rxSnr).toList := by
  unfold updGroup
  cases h1 : to_utc m.ts <;> cases h2 : m.rxRssi <;> cases h3 : m.rxSnr <;>
    simp [h1, h2, h3]

theorem gfold_rssi (g : List Msg) :
    ∀ r : GroupRec, (g.foldl updGroup r).rssi_vals =
      r.rssi_vals ++ g.filterMap (fun m => m.rxRssi) := by
  induction g with
  | nil => intro r; simp
  | cons m rest ih =>
    intro r
    rw [List.foldl_cons, ih, updGroup_rssi, List.filterMap_cons]
    cases h : m.rxRssi <;> simp [h]

theorem gfold_snr (g : List Msg) :
    ∀ r : GroupRec, (g.foldl updGroup r).snr_vals =
      r.snr_vals ++ g.filterMap (fun m => m.rxSnr) := by
  induction g with
  | nil => intro r; simp
  | cons m rest ih =>
    intro r
    rw [List.foldl_cons, ih, updGroup_snr, List.filterMap_cons]
    cases h : m.rxSnr <;> simp [h]

/-- C4: both views report the guarded `statistics.median` of the samples
they collect — in the overview, the fold-collected RSSI/SNR values per
node are exactly the node's filtered samples, absent (never zero) when the
sample list is empty; and the median realizes the spec's examples:
`[-80, -90, -70] ↦ -80` and `[-80, -90] ↦ -85`. -/
theorem c4_median_reporting (b : DataBundle) (inc : Bool)
    (apps : List String) :
    (∀ row ∈ (build_overview b inc apps).nodes,
      row.median_rssi = optMedian (rssiSamples b inc apps row.node_id) ∧
      row.median_snr = optMedian (snrSamples b inc apps row.node_id))
    ∧ (∀ nid : String,
      (build_node_detail b nid inc apps).median_rssi =
        optMedian (detailRssiSamples b nid inc apps) ∧
      (build_node_detail b nid inc apps).median_snr =
        optMedian (detailSnrSamples b nid inc apps))
    ∧ optMedian [] = none
    ∧ pymedian [-80, -90, -70] = -80
    ∧ pymedian [-80, -90] = -85 := by
  refine ⟨?_, fun nid => ⟨rfl, rfl⟩, rfl, rfl,
    by show ((-90 : ℚ) + -80) / 2 = -85; norm_num⟩
  intro row hrowmem
  have hmem : row ∈ ((byNode (filterApps apps (filterEnc inc b.messages))
      ).map (mkNodeRow (b.messages.foldl devStep [])
        (b.messages.foldl envStep []))) :=
    (List.mem_insertionSort _).mp hrowmem
  obtain ⟨p, hp, hpe⟩ := List.mem_map.mp hmem
  have hnodup : ((byNode (filterApps apps (filterEnc inc b.messages))
      ).map Prod.fst).Nodup :=
    nodup_keys_byNode _ [] (by simp)
  have hl : lookupA (byNode (filterApps apps (filterEnc inc b.messages)))
      p.1 = some p.2 :=
    lookupA_of_mem _ hnodup p hp
  unfold byNode at hl
  rw [byNode_lookup] at hl
  have hnil : lookupA ([] : List (String × GroupRec)) p.1 = none := rfl
  rw [hnil] at hl
  cases hg : groupList (filterApps apps (filterEnc inc b.messages)) p.1 with
  | nil =>
    rw [hg] at hl
    cases hl
  | cons x xs =>
    rw [hg] at hl
    simp only [Option.some.injEq] at hl
    have hr : p.2.rssi_vals = rssiSamples b inc apps p.1 := by
      rw [← hl, gfold_rssi]
      show initGroup.rssi_vals ++ _ = _
      rw [show initGroup.rssi_vals = [] from rfl, List.nil_append]
      show _ = (groupList (filterApps apps (filterEnc inc b.messages))
        p.1).filterMap (fun m => m.rxRssi)
      rw [hg]
    have hs : p.2.snr_vals = snrSamples b inc apps p.1 := by
      rw [← hl, gfold_snr]
      show initGroup.snr_vals ++ _ = _
      rw [show initGroup.snr_vals = [] from rfl, List.nil_append]
      show _ = (groupList (filterApps apps (filterEnc inc b.messages))
        p.1).filterMap (fun m => m.rxSnr)
      rw [hg]
    subst hpe
    constructor
    · show (if p.2.rssi_vals.isEmpty then none
        else some (pymedian p.2.rssi_vals)) = _
      rw [hr]
      rfl
    · show (if p.2.snr_vals.isEmpty then none
        else some (pymedian p.2.snr_vals)) = _
      rw [hs]
      rfl

/-- Witness for C4: the odd- and even-size median examples, realized
through the overview on concrete bundles. -/
theorem c4_median_reporting_witness :
    ((⟨"!a", some "2024-01-01T01:00:00+00:00",
        some "2024-01-01T03:00:00+00:00", 3, some (-80), none,
        [("TEXT_MESSAGE_APP", 3)], none, none⟩ : NodeRow).median_rssi =
      optMedian (rssiSamples c4aBundle true [] "!a")) ∧
    optMedian (rssiSamples c4aBundle true [] "!a") = some (-80) ∧
    ((⟨"!b", some "2024-01-01T04:00:00+00:00",
        some "2024-01-01T05:00:00+00:00", 2, some (pymedian [-80, -90]), none,
        [("TEXT_MESSAGE_APP", 2)], none, none⟩ : NodeRow).median_rssi =
      optMedian (rssiSamples c4bBundle true [] "!b")) ∧
    optMedian (rssiSamples c4bBundle true [] "!b") = some (-85) := by
  have heven : pymedian [(-80 : ℚ), -90] = -85 := by
    show ((-90 : ℚ) + -80) / 2 = -85
    norm_num
  refine ⟨?_, by decide, ?_, ?_⟩
  · have hmem : (⟨"!a", some "2024-01-01T01:00:00+00:00",
        some "2024-01-01T03:00:00+00:00", 3, some (-80), none,
        [("TEXT_MESSAGE_APP", 3)], none, none⟩ : NodeRow) ∈
        (build_overview c4aBundle true []).nodes := by
      rw [show (build_overview c4aBundle true []).nodes =
        [⟨"!a", some "2024-01-01T01:00:00+00:00",
          some "2024-01-01T03:00:00+00:00", 3, some (-80), none,
          [("TEXT_MESSAGE_APP", 3)], none, none⟩] from rfl]
      exact List.mem_singleton.mpr rfl
    exact ((c4_median_reporting c4aBundle true []).1 _ hmem).1
  · have hmem : (⟨"!b", some "2024-01-01T04:00:00+00:00",
        some "2024-01-01T05:00:00+00:00", 2, some (pymedian [-80, -90]), none,
        [("TEXT_MESSAGE_APP", 2)], none, none⟩ : NodeRow) ∈
        (build_overview c4bBundle true []).nodes := by
      rw [show (build_overview c4bBundle true []).nodes =
        [⟨"!b", some "2024-01-01T04:00:00+00:00",
          some "2024-01-01T05:00:00+00:00", 2, some (pymedian [-80, -90]),
          none, [("TEXT_MESSAGE_APP", 2)], none, none⟩] from rfl]
      exact List.mem_singleton.mpr rfl
    exact ((c4_median_reporting c4bBundle true []).1 _ hmem).1
  · show some (pymedian [(-80 : ℚ), -90]) = some (-85)
    rw [heven]

end Meshtastic
